import Mathlib

set_option maxRecDepth 100000

/-!
Verification development for the utility module of the wechat-article-exporter
repository (src/utils/index.ts).  The TypeScript functions are shallowly
embedded as executable Lean definitions:

* network fetches, the browser HTML parser, the mime table and the
  timestamp-plus-random unique-name generator are modelled as components of an
  explicit environment record (they are platform facilities, not code of the
  repository);
* the doubly-JSON-encoded payload of the publish-list endpoint is decoded with
  an executable JSON parser modelling the behaviour of JSON.parse (success, or
  a thrown SyntaxError), and dynamic property access is modelled with the
  JavaScript rules (undefined for a missing key, TypeError when dereferencing
  null or calling an array method of a non-array);
* thrown JavaScript errors are modelled with the Except monad.
-/

/-! ## JavaScript values and errors -/

/-- Errors thrown by the embedded JavaScript code: a plain Error carrying a
message, the SyntaxError thrown by JSON.parse, and the TypeError produced by
dereferencing null or by calling a method that does not exist. -/
inductive JsErr where
  | error (msg : String)
  | syntaxError
  | typeError
deriving DecidableEq, Repr

/-- JSON values, as produced by JSON.parse.  Object members keep their textual
order; a duplicated key is resolved by the lookup function (last wins, as in
JavaScript). -/
inductive Json where
  | null
  | bool (b : Bool)
  | num (mantissa : Int) (exp10 : Int)
  | str (s : String)
  | arr (elems : List Json)
  | obj (members : List (String × Json))

/-- Result of a JavaScript property access: a JSON value or undefined. -/
inductive JsVal where
  | undefined
  | val (j : Json)

/-- Lookup of an object member: as in JavaScript, the last binding of a
repeated key wins. -/
def objLookup (kvs : List (String × Json)) (k : String) : Option Json :=
  (kvs.reverse.find? (fun kv => kv.1 = k)).map (fun kv => kv.2)

/-- Property access obj.k of JavaScript: reading from null throws a TypeError,
reading a missing key of an object yields undefined, and reading any key of a
primitive (number, string, boolean) yields undefined. -/
def jsGetProp (v : Json) (k : String) : Except JsErr JsVal :=
  match v with
  | .null => .error .typeError
  | .obj kvs =>
    match objLookup kvs k with
    | some x => .ok (.val x)
    | none => .ok .undefined
  | _ => .ok .undefined

/-- Truthiness of a JavaScript value, used by the double-negation filter
predicate of getArticleList. -/
def jsTruthy : JsVal → Bool
  | .undefined => false
  | .val .null => false
  | .val (.bool b) => b
  | .val (.num m _) => !(m == 0)
  | .val (.str s) => !(s == "")
  | .val (.arr _) => true
  | .val (.obj _) => true

/-! ## An executable model of JSON.parse -/

/-- Whitespace skipping of the JSON grammar (space, tab, newline, carriage
return). -/
def skipWs : List Char → List Char
  | c :: cs =>
    if c = ' ' ∨ c = '\t' ∨ c = '\n' ∨ c = '\r' then skipWs cs else c :: cs
  | [] => []

/-- Value of a hexadecimal digit. -/
def hexVal (c : Char) : Option Nat :=
  if '0' ≤ c ∧ c ≤ '9' then some (c.toNat - 48)
  else if 'a' ≤ c ∧ c ≤ 'f' then some (c.toNat - 87)
  else if 'A' ≤ c ∧ c ≤ 'F' then some (c.toNat - 55)
  else none

/-- Longest prefix of decimal digits together with the remaining input. -/
def takeDigits : List Char → (List Char × List Char)
  | [] => ([], [])
  | c :: cs =>
    if c.isDigit then
      let (d, r) := takeDigits cs
      (c :: d, r)
    else ([], c :: cs)

/-- Numeric value of a list of decimal digits. -/
def digitsVal (ds : List Char) : Nat :=
  ds.foldl (fun a c => a * 10 + (c.toNat - 48)) 0

/-- Body of a JSON string literal after the opening quote: the decoded
characters and the input following the closing quote, or none on a malformed
literal. -/
def parseStringBody : List Char → Option (List Char × List Char)
  | [] => none
  | '"' :: rest => some ([], rest)
  | '\\' :: rest =>
    match rest with
    | '"' :: r => (parseStringBody r).map (fun p => ('"' :: p.1, p.2))
    | '\\' :: r => (parseStringBody r).map (fun p => ('\\' :: p.1, p.2))
    | '/' :: r => (parseStringBody r).map (fun p => ('/' :: p.1, p.2))
    | 'b' :: r => (parseStringBody r).map (fun p => (Char.ofNat 8 :: p.1, p.2))
    | 'f' :: r => (parseStringBody r).map (fun p => (Char.ofNat 12 :: p.1, p.2))
    | 'n' :: r => (parseStringBody r).map (fun p => ('\n' :: p.1, p.2))
    | 'r' :: r => (parseStringBody r).map (fun p => (Char.ofNat 13 :: p.1, p.2))
    | 't' :: r => (parseStringBody r).map (fun p => ('\t' :: p.1, p.2))
    | 'u' :: a :: b :: c :: d :: r =>
      match hexVal a, hexVal b, hexVal c, hexVal d with
      | some x1, some x2, some x3, some x4 =>
        (parseStringBody r).map
          (fun p => (Char.ofNat (((x1 * 16 + x2) * 16 + x3) * 16 + x4) :: p.1, p.2))
      | _, _, _, _ => none
    | _ => none
  | c :: rest =>
    if c.toNat < 32 then none
    else (parseStringBody rest).map (fun p => (c :: p.1, p.2))

/-- JSON number literal: sign, integer part, optional fraction, optional
exponent.  The value is kept exactly as mantissa times a power of ten. -/
def parseNumber (cs : List Char) : Option (Json × List Char) :=
  let signed : Bool × List Char :=
    match cs with
    | '-' :: r => (true, r)
    | _ => (false, cs)
  let (ds, cs2) := takeDigits signed.2
  if ds.isEmpty then none
  else
    let ipart : Int := Int.ofNat (digitsVal ds)
    let step2 : Option (Int × Int × List Char) :=
      match cs2 with
      | '.' :: r =>
        let (fds, cs3) := takeDigits r
        if fds.isEmpty then none
        else
          some (ipart * Int.ofNat (10 ^ fds.length) + Int.ofNat (digitsVal fds),
            -(Int.ofNat fds.length), cs3)
      | _ => some (ipart, 0, cs2)
    match step2 with
    | none => none
    | some (m, e, cs3) =>
      let step3 : Option (Int × List Char) :=
        match cs3 with
        | c :: r =>
          if c = 'e' ∨ c = 'E' then
            let esigned : Int × List Char :=
              match r with
              | '+' :: rr => (1, rr)
              | '-' :: rr => (-1, rr)
              | _ => (1, r)
            let (eds, r3) := takeDigits esigned.2
            if eds.isEmpty then none
            else some (esigned.1 * Int.ofNat (digitsVal eds), r3)
          else some (0, cs3)
        | [] => some (0, cs3)
      match step3 with
      | none => none
      | some (ex, cs4) =>
        some (.num (if signed.1 then -m else m) (e + ex), cs4)

mutual

/-- Recursive-descent JSON value parser.  The fuel argument only serves
termination; it is instantiated generously by jsonParseJS. -/
def parseValue : Nat → List Char → Option (Json × List Char)
  | 0, _ => none
  | fuel + 1, cs =>
    match skipWs cs with
    | 'n' :: 'u' :: 'l' :: 'l' :: rest => some (.null, rest)
    | 't' :: 'r' :: 'u' :: 'e' :: rest => some (.bool true, rest)
    | 'f' :: 'a' :: 'l' :: 's' :: 'e' :: rest => some (.bool false, rest)
    | '"' :: rest => (parseStringBody rest).map (fun p => (.str (String.mk p.1), p.2))
    | '[' :: rest =>
      (match skipWs rest with
       | ']' :: r2 => some (.arr [], r2)
       | r2 => (parseElems fuel r2).map (fun p => (.arr p.1, p.2)))
    | '{' :: rest =>
      (match skipWs rest with
       | '}' :: r2 => some (.obj [], r2)
       | r2 => (parseMembers fuel r2).map (fun p => (.obj p.1, p.2)))
    | rest => parseNumber rest

/-- Comma-separated JSON array elements up to the closing bracket. -/
def parseElems : Nat → List Char → Option (List Json × List Char)
  | 0, _ => none
  | fuel + 1, cs => do
    let (v, r1) ← parseValue fuel cs
    match skipWs r1 with
    | ',' :: r2 =>
      let (xs, t) ← parseElems fuel r2
      pure (v :: xs, t)
    | ']' :: r2 => pure ([v], r2)
    | _ => none

/-- Comma-separated JSON object members up to the closing brace. -/
def parseMembers : Nat → List Char → Option (List (String × Json) × List Char)
  | 0, _ => none
  | fuel + 1, cs =>
    match skipWs cs with
    | '"' :: r1 => do
      let (k, r2) ← parseStringBody r1
      match skipWs r2 with
      | ':' :: r3 => do
        let (v, r4) ← parseValue fuel r3
        match skipWs r4 with
        | ',' :: r5 =>
          let (kvs, t) ← parseMembers fuel r5
          pure ((String.mk k, v) :: kvs, t)
        | '}' :: r5 => pure ([(String.mk k, v)], r5)
        | _ => none
      | _ => none
    | _ => none

end

/-- Model of JSON.parse on a string argument: parse one JSON value, require
only whitespace after it, and throw a SyntaxError otherwise. -/
def jsonParseJS (s : String) : Except JsErr Json :=
  match parseValue (2 * s.length + 2) s.data with
  | some (v, rest) => if (skipWs rest).isEmpty then .ok v else .error .syntaxError
  | none => .error .syntaxError

mutual

/-- String coercion of a JSON value, as performed by JavaScript when a
non-string argument is handed to JSON.parse. -/
def jsToString : Json → String
  | .null => "null"
  | .bool b => if b then "true" else "false"
  | .num m e => toString m ++ (if e == 0 then "" else "e" ++ toString e)
  | .str s => s
  | .arr xs => jsToStringElems xs
  | .obj _ => "[object Object]"

/-- Comma-joined rendering of array elements, as Array.prototype.toString. -/
def jsToStringElems : List Json → String
  | [] => ""
  | [x] => jsToString x
  | x :: y :: xs => jsToString x ++ "," ++ jsToStringElems (y :: xs)

end

/-- String coercion of a JavaScript value (undefined included). -/
def jsValToString : JsVal → String
  | .undefined => "undefined"
  | .val j => jsToString j

/-! ## getArticleList (src/utils/index.ts, lines 174-203) -/

/-- Shape of the base_resp field of the appmsgpublish endpoint response. -/
structure BaseResp where
  ret : Int
  err_msg : String

/-- Typed boundary of the $fetch call of getArticleList: the endpoint returns
an object with a base result and the doubly-encoded publish_page string. -/
structure AppMsgPublishResponse where
  base_resp : BaseResp
  publish_page : String

/-- Array coercion used when the code calls the filter method: anything that
is not an array (undefined, null, a primitive or a plain object) has no filter
method and the call throws a TypeError. -/
def jsAsArray : JsVal → Except JsErr (List Json)
  | .val (.arr xs) => .ok xs
  | _ => .error .typeError

/-- Effectful filter, as Array.prototype.filter with a callback that may
throw: callbacks run left to right and the first thrown error aborts. -/
def exceptFilter (p : α → Except JsErr Bool) : List α → Except JsErr (List α)
  | [] => .ok []
  | x :: xs => do
    let b ← p x
    let rest ← exceptFilter p xs
    pure (if b then x :: rest else rest)

/-- One step of Array.prototype.flatMap flattening: an array returned by the
callback contributes its elements, any other value (undefined included) is
kept as a single element. -/
def flattenOne : JsVal → List JsVal
  | .val (.arr xs) => xs.map .val
  | v => [v]

/-- Effectful flatMap, as Array.prototype.flatMap with a callback that may
throw. -/
def exceptFlatMap (f : α → Except JsErr JsVal) : List α → Except JsErr (List JsVal)
  | [] => .ok []
  | x :: xs => do
    let v ← f x
    let rest ← exceptFlatMap f xs
    pure (flattenOne v ++ rest)

/-- Embedding of getArticleList (src/utils/index.ts, lines 174-203), starting
from the decoded endpoint response.  On ret = 0 the nested publish_page JSON
string is parsed, entries without a truthy publish_info are filtered out, an
empty filtered list yields the empty result, and otherwise each entry's own
publish_info JSON string is parsed and the appmsgex lists are flattened.  On
ret = 200003 a session-expired Error is thrown, on any other ret an Error
carrying the server's err_msg is thrown. -/
def getArticleList (resp : AppMsgPublishResponse) : Except JsErr (List JsVal) :=
  if resp.base_resp.ret = 0 then do
    let publish_page ← jsonParseJS resp.publish_page
    let rawList ← jsGetProp publish_page "publish_list"
    let fullList ← jsAsArray rawList
    let publish_list ← exceptFilter
      (fun item => do
        let pi ← jsGetProp item "publish_info"
        pure (jsTruthy pi)) fullList
    if publish_list.length = 0 then
      pure []
    else
      exceptFlatMap
        (fun item => do
          let piRaw ← jsGetProp item "publish_info"
          let publish_info ← jsonParseJS (jsValToString piRaw)
          jsGetProp publish_info "appmsgex") publish_list
  else if resp.base_resp.ret = 200003 then
    .error (.error "session expired")
  else
    .error (.error resp.base_resp.err_msg)

/-! ## Error classification for the ret = 0 decoding pipeline -/

/-- Outcomes possibly produced by the decoding steps of the ret = 0 branch:
success, a JSON SyntaxError, or a TypeError; never a plain Error. -/
def benignExc (r : Except JsErr α) : Prop :=
  (∃ a, r = .ok a) ∨ r = .error .syntaxError ∨ r = .error .typeError

/-! ## DOM model -/

/-- Document tree produced by the browser's DOMParser: element nodes with a
tag, an attribute list and children, and text nodes. -/
inductive Node where
  | text (s : String)
  | elem (tag : String) (attrs : List (String × String)) (children : List Node)

/-- Value of an attribute, as Element.getAttribute (attributes are unique in a
real DOM; the first binding wins here). -/
def attrGet : List (String × String) → String → Option String
  | [], _ => none
  | kv :: a, k => if kv.1 = k then some kv.2 else attrGet a k

/-- In-place update of an attribute value, as an assignment to a reflected
attribute property such as img.src. -/
def setAttr (attrs : List (String × String)) (k v : String) : List (String × String) :=
  attrs.map (fun kv => if kv.1 = k then (k, v) else kv)

mutual

/-- Model of document.querySelector with an id selector: first match in
document order (the node itself included), returning the components of the
matched element. -/
def findById (i : String) : Node → Option (String × List (String × String) × List Node)
  | .text _ => none
  | .elem t a cs => if attrGet a "id" = some i then some (t, a, cs) else findByIdL i cs

/-- The list version of findById, scanning siblings left to right. -/
def findByIdL (i : String) : List Node → Option (String × List (String × String) × List Node)
  | [] => none
  | c :: cs =>
    match findById i c with
    | some r => some r
    | none => findByIdL i cs

end

/-- Whether a node is an element carrying the given id. -/
def nodeHasId (i : String) : Node → Bool
  | .text _ => false
  | .elem _ a _ => attrGet a "id" == some i

/-- Removal of an attribute from an element node, as removeAttribute. -/
def removeAttrOf (a : String) : Node → Node
  | .text s => .text s
  | .elem t al cs => .elem t (al.filter (fun kv => kv.1 ≠ a)) cs

mutual

/-- Descendant part of querySelector(sel)?.removeAttribute(a): search inside
the node for the first element with the given id, in document order. -/
def remAttrFirstByIdN (i a : String) : Node → (Node × Bool)
  | .text s => (.text s, false)
  | .elem t al cs =>
    let r := remAttrFirstByIdF i a cs
    (.elem t al r.1, r.2)

/-- Model of element.querySelector(sel)?.removeAttribute(a) applied to a
forest: the first element with the given id, in document order (a root of the
forest included), loses the attribute; the Bool reports whether a match was
found. -/
def remAttrFirstByIdF (i a : String) : List Node → (List Node × Bool)
  | [] => ([], false)
  | c :: cs =>
    if nodeHasId i c then (removeAttrOf a c :: cs, true)
    else
      let r := remAttrFirstByIdN i a c
      if r.2 then (r.1 :: cs, true)
      else
        let r2 := remAttrFirstByIdF i a cs
        (c :: r2.1, r2.2)

end

mutual

/-- Descendant part of querySelector(sel)?.remove(): search inside the node
for the first element with the given id, in document order, and drop it. -/
def remFirstByIdN (i : String) : Node → (Node × Bool)
  | .text s => (.text s, false)
  | .elem t a cs =>
    let r := remFirstByIdF i cs
    (.elem t a r.1, r.2)

/-- Model of element.querySelector(sel)?.remove() applied to a forest: the
first element with the given id, in document order (a root of the forest
included), is removed from its parent. -/
def remFirstByIdF (i : String) : List Node → (List Node × Bool)
  | [] => ([], false)
  | c :: cs =>
    if nodeHasId i c then (cs, true)
    else
      let r := remFirstByIdN i c
      if r.2 then (r.1 :: cs, true)
      else
        let r2 := remFirstByIdF i cs
        (c :: r2.1, r2.2)

end

mutual

/-- Script removal inside one node, as part of
querySelectorAll('script').forEach(remove). -/
def removeScriptsN : Node → Node
  | .text s => .text s
  | .elem t a cs => .elem t a (removeScriptsF cs)

/-- Model of querySelectorAll('script').forEach(remove) on a forest: every
script element is removed (children of a removed script disappear with
it). -/
def removeScriptsF : List Node → List Node
  | [] => []
  | c :: cs =>
    match c with
    | .text s => .text s :: removeScriptsF cs
    | .elem t _ _ =>
      if t = "script" then removeScriptsF cs
      else removeScriptsN c :: removeScriptsF cs

end

mutual

/-- Source attributes of the img elements with a src attribute among a node
and its descendants, in document order, as querySelectorAll('img[src]'). -/
def imgSrcsN : Node → List String
  | .text _ => []
  | .elem t a cs =>
    if t = "img" ∧ (attrGet a "src").isSome then
      (attrGet a "src").getD "" :: imgSrcsL cs
    else imgSrcsL cs

/-- The list version of imgSrcsN. -/
def imgSrcsL : List Node → List String
  | [] => []
  | c :: cs => imgSrcsN c ++ imgSrcsL cs

end

/-- Text-node serialization escaping of the HTML serializer. -/
def escText (s : String) : String :=
  String.join (s.data.map (fun c =>
    if c = '&' then "&amp;"
    else if c = '<' then "&lt;"
    else if c = '>' then "&gt;"
    else String.mk [c]))

/-- Attribute-value serialization escaping of the HTML serializer: ampersands
and double quotes become entities, so a quote inside a style attribute is
serialized as the six characters of the quot entity. -/
def escAttr (s : String) : String :=
  String.join (s.data.map (fun c =>
    if c = '&' then "&amp;"
    else if c = '"' then "&quot;"
    else String.mk [c]))

/-- Serialization of an attribute list. -/
def serAttrs (attrs : List (String × String)) : String :=
  String.join (attrs.map (fun kv => " " ++ kv.1 ++ "=\"" ++ escAttr kv.2 ++ "\""))

mutual

/-- Model of element.outerHTML. -/
def serializeN : Node → String
  | .text s => escText s
  | .elem t a cs => "<" ++ t ++ serAttrs a ++ ">" ++ serializeL cs ++ "</" ++ t ++ ">"

/-- Serialization of a list of sibling nodes. -/
def serializeL : List Node → String
  | [] => ""
  | c :: cs => serializeN c ++ serializeL cs

end

mutual

/-- Hrefs of the stylesheet link elements matched by the descendant selector
used for the document head, in document order.  The flag records whether a
head ancestor has been passed. -/
def linkHrefsN (inHead : Bool) : Node → List String
  | .text _ => []
  | .elem t a cs =>
    (if t = "link" ∧ inHead ∧ attrGet a "rel" = some "stylesheet" then
      [(attrGet a "href").getD ""]
    else []) ++ linkHrefsL (inHead ∨ t = "head") cs

/-- The list version of linkHrefsN. -/
def linkHrefsL (inHead : Bool) : List Node → List String
  | [] => []
  | c :: cs => linkHrefsN inHead c ++ linkHrefsL inHead cs

end

/-! ## Platform environment -/

/-- Binary response body of a fetch, with its reported MIME type. -/
structure Blob where
  content : String
  type : String
deriving DecidableEq

/-- Platform facilities used by the embedded functions: the HTML parser, the
text and binary fetchers (an error is a thrown exception), the mime extension
table, and the stream of names produced by the timestamp-plus-random
unique-name generator (the n-th successful fetch of a call receives name
uuid n). -/
structure Env where
  parseHTML : String → Node
  fetchText : String → Except String String
  fetchBlob : String → Except String Blob
  mimeExt : String → Option String
  uuid : Nat → String

/-- Unreserved characters of encodeURIComponent. -/
def isUnreservedURI (c : Char) : Bool :=
  c.isAlphanum || c = '-' || c = '_' || c = '.' || c = '!' || c = '~' || c = '*' ||
  c = Char.ofNat 39 || c = '(' || c = ')'

/-- Uppercase hexadecimal digit. -/
def hexDigitU (n : Nat) : Char :=
  if n < 10 then Char.ofNat (48 + n) else Char.ofNat (55 + n)

/-- UTF-8 bytes of a code point. -/
def utf8Bytes (n : Nat) : List Nat :=
  if n < 128 then [n]
  else if n < 2048 then [192 + n / 64, 128 + n % 64]
  else if n < 65536 then [224 + n / 4096, 128 + (n / 64) % 64, 128 + n % 64]
  else [240 + n / 262144, 128 + (n / 4096) % 64, 128 + (n / 64) % 64, 128 + n % 64]

/-- Percent-encoding of one byte. -/
def pctByte (b : Nat) : String :=
  String.mk ['%', hexDigitU (b / 16), hexDigitU (b % 16)]

/-- Model of encodeURIComponent. -/
def encodeURIComponent (s : String) : String :=
  String.join (s.data.map (fun c =>
    if isUnreservedURI c then String.mk [c]
    else String.join ((utf8Bytes c.toNat).map pctByte)))

/-! ## downloadArticleHTML (src/utils/index.ts, lines 20-34) -/

/-- Embedding of downloadArticleHTML: fetch the page through the download
proxy, parse it, and require a page-content element; its absence throws the
fixed download-failed Error after logging the title when one was supplied.
The second component collects the console output. -/
def downloadArticleHTML (env : Env) (articleURL : String) (title : Option String) :
    Except JsErr String × List String :=
  match env.fetchText ("/api/download?url=" ++ encodeURIComponent articleURL) with
  | .error e => (.error (.error e), [])
  | .ok fullHTML =>
    match findById "page-content" (env.parseHTML fullHTML) with
    | none =>
      (.error (.error "下载失败，请重试"),
        match title with
        | some t => [t]
        | none => [])
    | some _ => (.ok fullHTML, [])

/-! ## Zip archive model (JSZip) -/

/-- Contents of a zip entry: a fetched blob, a text file, or a folder
marker. -/
inductive ZipData where
  | blobData (b : Blob)
  | textData (s : String)
  | folderData
deriving DecidableEq

/-- One entry of the archive. -/
structure ZipEntry where
  name : String
  data : ZipData
deriving DecidableEq

/-- Model of zip.file(name, data) on the name-keyed file store of JSZip:
replace the entry of that name when it exists (names are unique, entry order
is insertion order), append it otherwise. -/
def zipFile : List ZipEntry → String → ZipData → List ZipEntry
  | [], name, d => [⟨name, d⟩]
  | e :: z, name, d => if e.name = name then ⟨name, d⟩ :: z else e :: zipFile z name d

/-- Model of zip.folder(name): create the folder entry when absent. -/
def zipFolder : List ZipEntry → String → List ZipEntry
  | [], name => [⟨name, ZipData.folderData⟩]
  | e :: z, name => if e.name = name then e :: z else e :: zipFolder z name

/-- Entry lookup by name. -/
def zipLookup : List ZipEntry → String → Option ZipData
  | [], _ => none
  | e :: z, name => if e.name = name then some e.data else zipLookup z name

/-- State threaded through the asset-downloading loops: the archive under
construction and the number of names already drawn from the unique-name
generator. -/
structure PackSt where
  zip : List ZipEntry
  ctr : Nat

/-! ## Image phase of packHTMLAssets (src/utils/index.ts, lines 66-85) -/

mutual

/-- Image download pass over one node: every img element with a non-empty src
attribute is fetched; on success the blob is stored under a fresh
assets/ name whose extension comes from the blob's MIME type and the src
attribute is rewritten to the local relative path; on failure (or an empty
src) the element is left untouched.  Elements are visited in document order,
as the querySelectorAll('img[src]') loop does. -/
def imgPhaseN (env : Env) : Node → PackSt → (Node × PackSt)
  | .text s, st => (.text s, st)
  | .elem t a cs, st =>
    if t = "img" ∧ (attrGet a "src").isSome then
      let src := (attrGet a "src").getD ""
      if src = "" then
        let r := imgPhaseL env cs st
        (.elem t a r.1, r.2)
      else
        match env.fetchBlob src with
        | .ok imgData =>
          let uuid := env.uuid st.ctr
          let ext := (env.mimeExt imgData.type).getD "null"
          let path := "assets/" ++ uuid ++ "." ++ ext
          let a2 := setAttr a "src" ("./" ++ path)
          let r := imgPhaseL env cs ⟨zipFile st.zip path (.blobData imgData), st.ctr + 1⟩
          (.elem t a2 r.1, r.2)
        | .error _ =>
          let r := imgPhaseL env cs st
          (.elem t a r.1, r.2)
    else
      let r := imgPhaseL env cs st
      (.elem t a r.1, r.2)

/-- The list version of imgPhaseN, visiting siblings left to right. -/
def imgPhaseL (env : Env) : List Node → PackSt → (List Node × PackSt)
  | [], st => ([], st)
  | c :: cs, st =>
    let r := imgPhaseN env c st
    let r2 := imgPhaseL env cs r.2
    (r.1 :: r2.1, r2.2)

end

/-! ## Background-image phase (src/utils/index.ts, lines 88-121) -/

/-- Decomposition of the serialized content produced by the background regex:
unmatched text, and matches split into their three capture groups (prefix up
to and including the optional entity-escaped quote, the URL, and the closing
group). -/
inductive Seg where
  | raw (s : String)
  | bg (p1 url p3 : String)

/-- Whether the second list is a prefix of the first. -/
def listStartsWith : List Char → List Char → Bool
  | _, [] => true
  | [], _ :: _ => false
  | c :: cs, p :: ps => c == p && listStartsWith cs ps

/-- Characters closing a match with an entity-escaped quote. -/
def quotClose : List Char := ['&', 'q', 'u', 'o', 't', ';', ')']

/-- Lazy scan of the URL characters: consume at least one character that is
not a closing parenthesis, stopping at the earliest position where the
closing group (an optional entity-escaped quote followed by a closing
parenthesis) matches, as the non-greedy quantifier of the regex does. -/
def scanUrlEnd : List Char → Option (List Char × String × List Char)
  | [] => none
  | c :: cs =>
    if c == ')' then none
    else if listStartsWith cs quotClose then some ([c], "&quot;)", cs.drop 7)
    else if listStartsWith cs [')'] then some ([c], ")", cs.drop 1)
    else
      match scanUrlEnd cs with
      | some (u, p3, rest) => some (c :: u, p3, rest)
      | none => none

/-- Attempt to match the background regex at the current position for one of
the two alternation branches: the literal prefix, an optional entity-escaped
quote, a scheme (http route of the regex, or a protocol-relative double
slash), and the lazily scanned URL tail. -/
def tryBgPrefix (pfx : String) (cs : List Char) : Option (String × String × String × List Char) :=
  if listStartsWith cs pfx.data then
    let r1 := cs.drop pfx.length
    let hasQuot := listStartsWith r1 "&quot;".data
    let r2 := if hasQuot then r1.drop 6 else r1
    let scheme : Option String :=
      if listStartsWith r2 "http".data then some "http"
      else if listStartsWith r2 "//".data then some "//"
      else none
    match scheme with
    | none => none
    | some sch =>
      match scanUrlEnd (r2.drop sch.length) with
      | none => none
      | some (u, p3, rest) =>
        some (pfx ++ (if hasQuot then "&quot;" else ""), sch ++ String.mk u, p3, rest)
  else none

/-- Attempt to match the background regex at the current position, trying the
alternation branches in the order of the pattern. -/
def tryBgMatch (cs : List Char) : Option (String × String × String × List Char) :=
  match tryBgPrefix "background: url(" cs with
  | some r => some r
  | none => tryBgPrefix "background-image: url(" cs

/-- Left-to-right scan of the whole string for non-overlapping matches of the
background regex, as String.prototype.replaceAll; unmatched characters are
accumulated in reverse in the second argument. -/
def scanBg : Nat → List Char → List Char → List Seg
  | 0, accRev, cs =>
    if accRev.isEmpty && cs.isEmpty then [] else [.raw (String.mk (accRev.reverse ++ cs))]
  | fuel + 1, accRev, cs =>
    match cs with
    | [] => if accRev.isEmpty then [] else [.raw (String.mk accRev.reverse)]
    | c :: cs2 =>
      match tryBgMatch cs with
      | some (p1, url, p3, rest) =>
        (if accRev.isEmpty then [] else [.raw (String.mk accRev.reverse)]) ++
          .bg p1 url p3 :: scanBg fuel [] rest
      | none => scanBg fuel (c :: accRev) cs2

/-- Match decomposition of a string under the background regex. -/
def scanBgStr (s : String) : List Seg := scanBg (s.length + 1) [] s.data

/-- URLs of the matches in order, with multiplicity. -/
def segUrls : List Seg → List String
  | [] => []
  | .raw _ :: ss => segUrls ss
  | .bg _ url _ :: ss => url :: segUrls ss

/-- First-occurrence deduplication, as iteration over a JavaScript Set built
by insertion. -/
def dedupeFirst (seen : List String) : List String → List String
  | [] => []
  | x :: xs => if x ∈ seen then dedupeFirst seen xs else x :: dedupeFirst (x :: seen) xs

/-- Lookup in the url-to-path map (keys are unique by construction; the first
binding wins, as Map.get). -/
def mapLookup : List (String × String) → String → Option String
  | [], _ => none
  | kv :: m, k => if kv.1 = k then some kv.2 else mapLookup m k

/-- Background fetch loop over the deduplicated URL set: a successful fetch
stores the blob under a fresh assets/ name and records the url-to-path
binding; a failure is logged and recorded nowhere. -/
def bgFetchLoop (env : Env) : List String → PackSt → List (String × String) →
    (PackSt × List (String × String))
  | [], st, m => (st, m)
  | url :: rest, st, m =>
    match env.fetchBlob url with
    | .ok imgData =>
      let uuid := env.uuid st.ctr
      let ext := (env.mimeExt imgData.type).getD "null"
      let path := "assets/" ++ uuid ++ "." ++ ext
      bgFetchLoop env rest ⟨zipFile st.zip path (.blobData imgData), st.ctr + 1⟩
        (m ++ [(url, path)])
    | .error _ => bgFetchLoop env rest st m

/-- Rewriting replaceAll pass: a match whose URL is in the map becomes the
prefix, the local relative path and the closing group; any other match is
reassembled unchanged. -/
def rewriteSeg (m : List (String × String)) : Seg → String
  | .raw s => s
  | .bg p1 url p3 =>
    match mapLookup m url with
    | some path => p1 ++ "./" ++ path ++ p3
    | none => p1 ++ url ++ p3

/-- Rendering of the rewritten serialized content. -/
def rewriteSegs (m : List (String × String)) (segs : List Seg) : String :=
  String.join (segs.map (rewriteSeg m))

/-! ## Stylesheet phase and assembly (src/utils/index.ts, lines 123-165) -/

/-- Stylesheet fetch loop: each fetched stylesheet is stored under a fresh
assets/ name with the css extension and a link tag pointing at the local copy
is accumulated; a failed fetch is logged and its link dropped. -/
def cssLoop (env : Env) : List String → PackSt → String → (PackSt × String)
  | [], st, acc => (st, acc)
  | url :: rest, st, acc =>
    match env.fetchText url with
    | .ok stylesheet =>
      let uuid := env.uuid st.ctr
      cssLoop env rest
        ⟨zipFile st.zip ("assets/" ++ uuid ++ ".css") (.textData stylesheet), st.ctr + 1⟩
        (acc ++ "<link rel=\"stylesheet\" href=\"./assets/" ++ uuid ++ ".css\">")
    | .error _ => cssLoop env rest st acc

/-- The fixed index.html template of packHTMLAssets, with the accumulated
local stylesheet links and the rewritten content interpolated. -/
def indexTemplate (localLinks pageContentHTML : String) : String :=
  "<!DOCTYPE html>\n<html lang=\"zh_CN\">\n<head>\n    <meta charset=\"utf-8\">\n    <meta http-equiv=\"Content-Type\" content=\"text/html; charset=utf-8\">\n    <meta http-equiv=\"X-UA-Compatible\" content=\"IE=edge\">\n    <meta name=\"viewport\" content=\"width=device-width,initial-scale=1.0,maximum-scale=1.0,user-scalable=0,viewport-fit=cover\">\n    " ++
  localLinks ++
  "\n    <style>\n        #page-content \x7b\n            max-width: 667px;\n            margin: 0 auto;\n        \x7d\n        img \x7b\n            max-width: 100%;\n        \x7d\n    </style>\n</head>\n<body>\n" ++
  pageContentHTML ++
  "\n</body>\n</html>"

/-- Embedding of packHTMLAssets (src/utils/index.ts, lines 41-165): parse the
HTML, dereference the page-content element (the unguarded non-null assertion
makes a missing element a thrown TypeError), strip the noise elements, run
the image, background-image and stylesheet phases, and store the composed
document as index.html in the archive (the one passed in, or a fresh one). -/
def packHTMLAssets (env : Env) (html : String) (zipArg : Option (List ZipEntry)) :
    Except JsErr (List ZipEntry) :=
  let zip0 := zipArg.getD []
  let document := env.parseHTML html
  match findById "page-content" document with
  | none => .error .typeError
  | some (pcTag, pcAttrs, pcChildren) =>
    let cs1 := (remAttrFirstByIdF "js_content" "style" pcChildren).1
    let cs2 := (remFirstByIdF "js_tags_preview_toast" cs1).1
    let cs3 := (remFirstByIdF "content_bottom_area" cs2).1
    let cs4 := (remFirstByIdF "js_temp_bottom_area" cs3).1
    let cs5 := removeScriptsF cs4
    let zip1 := zipFolder zip0 "assets/"
    let r := imgPhaseL env cs5 ⟨zip1, 0⟩
    let pageContentHTML := serializeN (.elem pcTag pcAttrs r.1)
    let segs := scanBgStr pageContentHTML
    let bgImageURLs := dedupeFirst [] (segUrls segs)
    let rb := bgFetchLoop env bgImageURLs r.2 []
    let pageContentHTML2 := rewriteSegs rb.2 segs
    let links := linkHrefsN false document
    let rc := cssLoop env links rb.1 ""
    let indexHTML := indexTemplate rc.2 pageContentHTML2
    .ok (zipFile rc.1.zip "index.html" (.textData indexHTML))

/-! ## Expected effect of the asset loops, as functions of the inputs -/

/-- Archive path generated for the n-th successful fetch, given the
extension. -/
def assetPath (env : Env) (n : Nat) (ext : String) : String :=
  "assets/" ++ env.uuid n ++ "." ++ ext

/-- Extension derived from a blob's MIME type; a missing table entry is
interpolated as the string null, as a template literal does. -/
def blobExt (env : Env) (b : Blob) : String := (env.mimeExt b.type).getD "null"

/-- Files stored by the image loop for the given src list, with the counter
of the unique-name generator starting at n. -/
def expectedImgFiles (env : Env) : Nat → List String → List (String × Blob)
  | _, [] => []
  | n, s :: ss =>
    if s = "" then expectedImgFiles env n ss
    else
      match env.fetchBlob s with
      | .ok b => (assetPath env n (blobExt env b), b) :: expectedImgFiles env (n + 1) ss
      | .error _ => expectedImgFiles env n ss

/-- Src attributes after the image loop: a fetched source becomes the local
relative path of its stored file, an empty or unfetchable source is kept. -/
def expectedImgSrcs (env : Env) : Nat → List String → List String
  | _, [] => []
  | n, s :: ss =>
    if s = "" then s :: expectedImgSrcs env n ss
    else
      match env.fetchBlob s with
      | .ok b => ("./" ++ assetPath env n (blobExt env b)) :: expectedImgSrcs env (n + 1) ss
      | .error _ => s :: expectedImgSrcs env n ss

/-- Number of successful fetches performed by the image loop. -/
def imgFetchCount (env : Env) : List String → Nat
  | [] => 0
  | s :: ss =>
    (if s = "" then 0 else
      match env.fetchBlob s with
      | .ok _ => 1
      | .error _ => 0) + imgFetchCount env ss

/-- Files stored by the background loop for the deduplicated URL list. -/
def expectedBgFiles (env : Env) : Nat → List String → List (String × Blob)
  | _, [] => []
  | n, url :: rest =>
    match env.fetchBlob url with
    | .ok b => (assetPath env n (blobExt env b), b) :: expectedBgFiles env (n + 1) rest
    | .error _ => expectedBgFiles env n rest

/-- Url-to-path map built by the background loop. -/
def expectedBgMap (env : Env) : Nat → List String → List (String × String)
  | _, [] => []
  | n, url :: rest =>
    match env.fetchBlob url with
    | .ok b => (url, assetPath env n (blobExt env b)) :: expectedBgMap env (n + 1) rest
    | .error _ => expectedBgMap env n rest

/-- Number of successful fetches performed by the background loop. -/
def bgFetchCount (env : Env) : List String → Nat
  | [] => 0
  | url :: rest =>
    (match env.fetchBlob url with
      | .ok _ => 1
      | .error _ => 0) + bgFetchCount env rest

/-- Files stored by the stylesheet loop. -/
def expectedCssFiles (env : Env) : Nat → List String → List (String × String)
  | _, [] => []
  | n, url :: rest =>
    match env.fetchText url with
    | .ok s => ("assets/" ++ env.uuid n ++ ".css", s) :: expectedCssFiles env (n + 1) rest
    | .error _ => expectedCssFiles env n rest

/-- Number of successful fetches performed by the stylesheet loop. -/
def cssFetchCount (env : Env) : List String → Nat
  | [] => 0
  | url :: rest =>
    (match env.fetchText url with
      | .ok _ => 1
      | .error _ => 0) + cssFetchCount env rest

/-- Local link tags accumulated by the stylesheet loop. -/
def expectedCssLinks (env : Env) : Nat → List String → String
  | _, [] => ""
  | n, url :: rest =>
    match env.fetchText url with
    | .ok _ =>
      ("<link rel=\"stylesheet\" href=\"./assets/" ++ env.uuid n ++ ".css\">") ++
        expectedCssLinks env (n + 1) rest
    | .error _ => expectedCssLinks env n rest

/-- Storing a list of blob files in order. -/
def foldFiles (z : List ZipEntry) : List (String × Blob) → List ZipEntry
  | [] => z
  | pb :: rest => foldFiles (zipFile z pb.1 (.blobData pb.2)) rest

/-- Storing a list of text files in order. -/
def foldTexts (z : List ZipEntry) : List (String × String) → List ZipEntry
  | [] => z
  | ps :: rest => foldTexts (zipFile z ps.1 (.textData ps.2)) rest

/-- Names of the archive entries, in order. -/
def zipNames (z : List ZipEntry) : List String := z.map (fun e => e.name)

/-! ## Stage views of packHTMLAssets -/

/-- Children of the content container after the noise-removal steps. -/
def cleanupChildren (pcChildren : List Node) : List Node :=
  removeScriptsF
    (remFirstByIdF "js_temp_bottom_area"
      (remFirstByIdF "content_bottom_area"
        (remFirstByIdF "js_tags_preview_toast"
          (remAttrFirstByIdF "js_content" "style" pcChildren).1).1).1).1

/-- Src attributes handled by the image loop of a packHTMLAssets call. -/
def packSrcs (env : Env) (pcChildren : List Node) : List String :=
  imgSrcsL (cleanupChildren pcChildren)

/-- Content children after the image loop of a packHTMLAssets call. -/
def packImgOut (env : Env) (zipArg : Option (List ZipEntry)) (pcChildren : List Node) :
    List Node :=
  (imgPhaseL env (cleanupChildren pcChildren)
    ⟨zipFolder (zipArg.getD []) "assets/", 0⟩).1

/-- Background-regex decomposition of the serialized content of a
packHTMLAssets call. -/
def packSegs (env : Env) (zipArg : Option (List ZipEntry)) (pcTag : String)
    (pcAttrs : List (String × String)) (pcChildren : List Node) : List Seg :=
  scanBgStr (serializeN (.elem pcTag pcAttrs (packImgOut env zipArg pcChildren)))

/-- Deduplicated background URL set of a packHTMLAssets call, in insertion
order. -/
def packUrls (env : Env) (zipArg : Option (List ZipEntry)) (pcTag : String)
    (pcAttrs : List (String × String)) (pcChildren : List Node) : List String :=
  dedupeFirst [] (segUrls (packSegs env zipArg pcTag pcAttrs pcChildren))

/-- Names drawn by the image loop. -/
def packC1 (env : Env) (pcChildren : List Node) : Nat :=
  imgFetchCount env (packSrcs env pcChildren)

/-- The url-to-path map of a packHTMLAssets call. -/
def packBgMap (env : Env) (zipArg : Option (List ZipEntry)) (pcTag : String)
    (pcAttrs : List (String × String)) (pcChildren : List Node) : List (String × String) :=
  expectedBgMap env (packC1 env pcChildren) (packUrls env zipArg pcTag pcAttrs pcChildren)

/-- Names drawn by the image and background loops. -/
def packC2 (env : Env) (zipArg : Option (List ZipEntry)) (pcTag : String)
    (pcAttrs : List (String × String)) (pcChildren : List Node) : Nat :=
  packC1 env pcChildren +
    bgFetchCount env (packUrls env zipArg pcTag pcAttrs pcChildren)

/-- Rewritten serialized content of a packHTMLAssets call. -/
def packContent2 (env : Env) (zipArg : Option (List ZipEntry)) (pcTag : String)
    (pcAttrs : List (String × String)) (pcChildren : List Node) : String :=
  rewriteSegs (packBgMap env zipArg pcTag pcAttrs pcChildren)
    (packSegs env zipArg pcTag pcAttrs pcChildren)

/-- Composed index.html document of a packHTMLAssets call. -/
def packIndexHTML (env : Env) (zipArg : Option (List ZipEntry)) (document : Node)
    (pcTag : String) (pcAttrs : List (String × String)) (pcChildren : List Node) : String :=
  indexTemplate
    (expectedCssLinks env (packC2 env zipArg pcTag pcAttrs pcChildren)
      (linkHrefsN false document))
    (packContent2 env zipArg pcTag pcAttrs pcChildren)

/-- Final archive of a successful packHTMLAssets call, phrased with the
expected-effect functions. -/
def packExpectedZip (env : Env) (zipArg : Option (List ZipEntry)) (document : Node)
    (pcTag : String) (pcAttrs : List (String × String)) (pcChildren : List Node) :
    List ZipEntry :=
  zipFile
    (foldTexts
      (foldFiles
        (foldFiles (zipFolder (zipArg.getD []) "assets/")
          (expectedImgFiles env 0 (packSrcs env pcChildren)))
        (expectedBgFiles env (packC1 env pcChildren)
          (packUrls env zipArg pcTag pcAttrs pcChildren)))
      (expectedCssFiles env (packC2 env zipArg pcTag pcAttrs pcChildren)
        (linkHrefsN false document)))
    "index.html"
    (.textData (packIndexHTML env zipArg document pcTag pcAttrs pcChildren))

/-! ## Claim C6: images -/

/-- Whether a fetch of this URL succeeds. -/
def fetchOkB (env : Env) (s : String) : Bool :=
  match env.fetchBlob s with
  | .ok _ => true
  | .error _ => false

/-- Per-image relation between an original source and its src attribute after
the image loop, relative to the list of stored image files: an unfetchable
source is kept untouched; a fetchable one is rewritten to the local relative
path of a stored file holding exactly the fetched blob. -/
def imgClaimRelF (env : Env) (F : List (String × Blob)) (s s2 : String) : Prop :=
  match env.fetchBlob s with
  | .error _ => s2 = s
  | .ok b => ∃ p, s2 = "./" ++ p ∧ (p, b) ∈ F

/-- The same relation, phrased against the final archive: the rewritten src
points at an archive entry holding exactly the fetched blob. -/
def imgClaimRel (env : Env) (Z2 : List ZipEntry) (s s2 : String) : Prop :=
  match env.fetchBlob s with
  | .error _ => s2 = s
  | .ok b => ∃ p, s2 = "./" ++ p ∧ zipLookup Z2 p = some (.blobData b)

/-- Test environment for the image-phase witness: two distinct image sources,
one fetchable. -/
def envC6 : Env :=
  ⟨fun _ => .elem "div" [("id", "page-content")]
      [.elem "img" [("src", "http://a/1.png")] [],
       .elem "img" [("src", "http://a/2.png")] []],
    fun _ => .error "no css",
    fun u => if u = "http://a/1.png" then .ok ⟨"IMG1", "image/png"⟩ else .error "404",
    fun t => if t = "image/png" then some "png" else none,
    fun n => "u" ++ toString n⟩

/-- Content children of the witness document. -/
def pcChC6 : List Node :=
  [.elem "img" [("src", "http://a/1.png")] [], .elem "img" [("src", "http://a/2.png")] []]

/-- The archive of the witness run. -/
def zipC6 : List ZipEntry :=
  packExpectedZip envC6 none (envC6.parseHTML "x") "div" [("id", "page-content")] pcChC6

/-! ## Claim C7: background images -/

/-- Whether a segment is a background match of the given URL. -/
def isBgOf (u : String) : Seg → Bool
  | .raw _ => false
  | .bg _ url _ => url == u

/-- First capture group of a match (or the raw text). -/
def segP1 : Seg → String
  | .raw s => s
  | .bg p1 _ _ => p1

/-- Closing capture group of a match. -/
def segP3 : Seg → String
  | .raw _ => ""
  | .bg _ _ p3 => p3

/-- Test environment for the background witness: the same background URL
appears in the style of two elements, and its fetch succeeds. -/
def envC7 : Env :=
  ⟨fun _ => .elem "div" [("id", "page-content")]
      [.elem "i" [("style", "background: url(\"http://x/b.png\")")] [],
       .elem "i" [("style", "background: url(\"http://x/b.png\")")] []],
    fun _ => .error "no css",
    fun u => if u = "http://x/b.png" then .ok ⟨"BG", "image/png"⟩ else .error "404",
    fun t => if t = "image/png" then some "png" else none,
    fun n => "u" ++ toString n⟩

/-- Content children of the background witness document. -/
def pcChC7 : List Node :=
  [.elem "i" [("style", "background: url(\"http://x/b.png\")")] [],
   .elem "i" [("style", "background: url(\"http://x/b.png\")")] []]

/-- The archive of the background witness run. -/
def zipC7 : List ZipEntry :=
  packExpectedZip envC7 none (envC7.parseHTML "x") "div" [("id", "page-content")] pcChC7

/-- Test environment for the incremental witness: an article with no assets,
packed into an archive already holding an older article's asset and
index.html. -/
def envC10 : Env :=
  ⟨fun _ => .elem "div" [("id", "page-content")] [.text "hello"],
    fun _ => .error "no css",
    fun _ => .error "404",
    fun _ => none,
    fun n => "u" ++ toString n⟩

/-- The archive of the previous call in the incremental witness. -/
def prevZipC10 : List ZipEntry :=
  [⟨"assets/", .folderData⟩,
   ⟨"assets/old.png", .blobData ⟨"OLD", "image/png"⟩⟩,
   ⟨"index.html", .textData "old article"⟩]

/-- The archive of the incremental witness run. -/
def zipC10 : List ZipEntry :=
  packExpectedZip envC10 (some prevZipC10) (envC10.parseHTML "x") "div"
    [("id", "page-content")] [.text "hello"]

example : jsonParseJS "\x7b\"a\":[1,2,null],\"b\":\"x\"\x7d" =
    .ok (.obj [("a", .arr [.num 1 0, .num 2 0, .null]), ("b", .str "x")]) := rfl

example :
    getArticleList ⟨⟨0, ""⟩,
      "\x7b\"publish_list\":[\x7b\"publish_info\":\"\x7b\\\"appmsgex\\\":[null,true]\x7d\"\x7d]\x7d"⟩ =
    .ok [.val .null, .val (.bool true)] := rfl

example : getArticleList ⟨⟨0, ""⟩, "oops"⟩ = .error .syntaxError := rfl

/-! ## Helper lemmas for the getArticleList theorems -/

theorem exceptBindOk (a : α) (f : α → Except JsErr β) :
    (Except.ok a >>= f : Except JsErr β) = f a := rfl

theorem exceptBindErr (e : JsErr) (f : α → Except JsErr β) :
    ((Except.error e : Except JsErr α) >>= f) = .error e := rfl

theorem exceptPureEq (a : α) : (pure a : Except JsErr α) = .ok a := rfl

theorem exceptPureBind (a : α) (f : α → Except JsErr β) :
    (pure a >>= f : Except JsErr β) = f a := rfl

theorem exceptFilter_publishInfo (piv : Json → JsVal) :
    ∀ (l : List Json), (∀ i ∈ l, jsGetProp i "publish_info" = .ok (piv i)) →
    exceptFilter (fun item => do
        let pi ← jsGetProp item "publish_info"
        pure (jsTruthy pi)) l = .ok (l.filter (fun i => jsTruthy (piv i)))
  | [], _ => rfl
  | x :: xs, h => by
    have hx := h x (List.mem_cons_self x xs)
    have ih := exceptFilter_publishInfo piv xs (fun i hi => h i (List.mem_cons_of_mem x hi))
    simp only [exceptFilter, hx, exceptBindOk, exceptPureBind, ih, List.filter_cons]
    cases jsTruthy (piv x) <;> rfl

theorem exceptFlatMap_publishInfo (piv : Json → JsVal) (ax : Json → List Json) :
    ∀ (l : List Json),
    (∀ i ∈ l, jsGetProp i "publish_info" = .ok (piv i)) →
    (∀ i ∈ l, ∃ s, piv i = .val (.str s) ∧
      ∃ pj, jsonParseJS s = .ok pj ∧ jsGetProp pj "appmsgex" = .ok (.val (.arr (ax i)))) →
    exceptFlatMap (fun item => do
        let piRaw ← jsGetProp item "publish_info"
        let publish_info ← jsonParseJS (jsValToString piRaw)
        jsGetProp publish_info "appmsgex") l =
      .ok (l.flatMap (fun i => (ax i).map .val))
  | [], _, _ => rfl
  | x :: xs, h, hp => by
    have hx := h x (List.mem_cons_self x xs)
    obtain ⟨s, hs, pj, hpj, hax⟩ := hp x (List.mem_cons_self x xs)
    have ih := exceptFlatMap_publishInfo piv ax xs
      (fun i hi => h i (List.mem_cons_of_mem x hi))
      (fun i hi => hp i (List.mem_cons_of_mem x hi))
    simp only [exceptFlatMap, hx, exceptBindOk, hs]
    show (jsonParseJS s >>= fun publish_info => jsGetProp publish_info "appmsgex") >>=
        (fun v => exceptFlatMap _ xs >>= fun rest => pure (flattenOne v ++ rest)) = _
    simp only [hpj, exceptBindOk, hax, ih, exceptPureEq, List.flatMap_cons]
    rfl

/-- Claim C1: when the base-result code is 0, getArticleList parses the nested
publish_page JSON string, drops every entry whose publish_info is missing or
empty, returns the empty sequence when the filtered list is empty, and
otherwise returns the in-order concatenation of the appmsgex lists obtained by
parsing each remaining entry's publish_info JSON string. -/
theorem C1_getArticleList_ret0
    (resp : AppMsgPublishResponse) (pp : Json) (items : List Json)
    (piv : Json → JsVal) (ax : Json → List Json)
    (hret : resp.base_resp.ret = 0)
    (hpp : jsonParseJS resp.publish_page = .ok pp)
    (hpl : jsGetProp pp "publish_list" = .ok (.val (.arr items)))
    (hacc : ∀ i ∈ items, jsGetProp i "publish_info" = .ok (piv i))
    (hstr : ∀ i ∈ items, piv i = .undefined ∨ ∃ s, piv i = .val (.str s))
    (hparse : ∀ i ∈ items, ∀ s, piv i = .val (.str s) → s ≠ "" →
      ∃ pj, jsonParseJS s = .ok pj ∧ jsGetProp pj "appmsgex" = .ok (.val (.arr (ax i)))) :
    getArticleList resp =
      .ok ((items.filter (fun i => jsTruthy (piv i))).flatMap (fun i => (ax i).map .val)) := by
  have hfil := exceptFilter_publishInfo piv items hacc
  unfold getArticleList
  rw [hret]
  simp only [if_pos rfl, hpp, exceptBindOk, hpl, jsAsArray, hfil]
  by_cases hc : (items.filter (fun i => jsTruthy (piv i))).length = 0
  · rw [if_pos hc]
    rw [List.length_eq_zero] at hc
    rw [hc]
    rfl
  · rw [if_neg hc]
    apply exceptFlatMap_publishInfo piv ax
    · intro i hi
      exact hacc i (List.mem_filter.mp hi).1
    · intro i hi
      have hmem := (List.mem_filter.mp hi).1
      have htru := (List.mem_filter.mp hi).2
      rcases hstr i hmem with hu | ⟨s, hs⟩
      · rw [hu] at htru
        simp [jsTruthy] at htru
      · have hne : s ≠ "" := by
          intro he
          rw [hs, he] at htru
          simp [jsTruthy] at htru
        exact ⟨s, hs, hparse i hmem s hs hne⟩

/-- Witness for C1 at a concrete response: one entry with a well-formed
publish_info and one entry with an empty publish_info; the empty one is
dropped and the appmsgex list of the other is returned. -/
theorem C1_witness :
    getArticleList ⟨⟨0, ""⟩,
      "\x7b\"publish_list\":[\x7b\"publish_info\":\"\x7b\\\"appmsgex\\\":[null,true]\x7d\"\x7d,\x7b\"publish_info\":\"\"\x7d]\x7d"⟩ =
    .ok [.val .null, .val (.bool true)] := by
  have h := C1_getArticleList_ret0
    ⟨⟨0, ""⟩,
      "\x7b\"publish_list\":[\x7b\"publish_info\":\"\x7b\\\"appmsgex\\\":[null,true]\x7d\"\x7d,\x7b\"publish_info\":\"\"\x7d]\x7d"⟩
    (.obj [("publish_list", .arr
      [.obj [("publish_info", .str "\x7b\"appmsgex\":[null,true]\x7d")],
       .obj [("publish_info", .str "")]])])
    [.obj [("publish_info", .str "\x7b\"appmsgex\":[null,true]\x7d")],
     .obj [("publish_info", .str "")]]
    (fun i => match i with
      | .obj (("publish_info", .str s) :: _) => .val (.str s)
      | _ => .undefined)
    (fun _ => [Json.null, Json.bool true])
    rfl rfl rfl
    (by
      intro i hi
      simp only [List.mem_cons, List.not_mem_nil, or_false] at hi
      rcases hi with rfl | rfl <;> rfl)
    (by
      intro i hi
      simp only [List.mem_cons, List.not_mem_nil, or_false] at hi
      rcases hi with rfl | rfl
      · exact Or.inr ⟨"\x7b\"appmsgex\":[null,true]\x7d", rfl⟩
      · exact Or.inr ⟨"", rfl⟩)
    (by
      intro i hi s hs hne
      simp only [List.mem_cons, List.not_mem_nil, or_false] at hi
      rcases hi with rfl | rfl
      · cases hs
        exact ⟨.obj [("appmsgex", .arr [.null, .bool true])], rfl, rfl⟩
      · cases hs
        exact absurd rfl hne)
  exact h.trans rfl

/-- Claim C2: for base-result code 200003, getArticleList fails with the
distinguished session-expired Error, whose fixed message differs from the
server-supplied message of the generic error thrown for other non-zero
codes. -/
theorem C2_getArticleList_sessionExpired
    (resp r2 : AppMsgPublishResponse)
    (h : resp.base_resp.ret = 200003)
    (h0 : r2.base_resp.ret ≠ 0) (h1 : r2.base_resp.ret ≠ 200003)
    (h2 : r2.base_resp.err_msg ≠ "session expired") :
    getArticleList resp = .error (.error "session expired") ∧
    getArticleList r2 = .error (.error r2.base_resp.err_msg) ∧
    getArticleList r2 ≠ getArticleList resp := by
  have e1 : getArticleList resp = .error (.error "session expired") := by
    unfold getArticleList
    rw [h]
    norm_num
  have e2 : getArticleList r2 = .error (.error r2.base_resp.err_msg) := by
    unfold getArticleList
    rw [if_neg h0, if_neg h1]
  refine ⟨e1, e2, ?_⟩
  rw [e1, e2]
  intro heq
  simp only [Except.error.injEq, JsErr.error.injEq] at heq
  exact h2 heq

/-- Witness for C2 at concrete responses with ret 200003 and ret 5. -/
theorem C2_witness :
    getArticleList ⟨⟨200003, "whatever"⟩, ""⟩ = .error (.error "session expired") ∧
    getArticleList ⟨⟨5, "freq control"⟩, ""⟩ = .error (.error "freq control") ∧
    getArticleList ⟨⟨5, "freq control"⟩, ""⟩ ≠ getArticleList ⟨⟨200003, "whatever"⟩, ""⟩ :=
  C2_getArticleList_sessionExpired ⟨⟨200003, "whatever"⟩, ""⟩ ⟨⟨5, "freq control"⟩, ""⟩
    rfl (by decide) (by decide) (by decide)

/-- Claim C3: for any non-zero base-result code other than 200003,
getArticleList fails with exactly the server-supplied error message. -/
theorem C3_getArticleList_serverMessage
    (resp : AppMsgPublishResponse)
    (h0 : resp.base_resp.ret ≠ 0) (h1 : resp.base_resp.ret ≠ 200003) :
    getArticleList resp = .error (.error resp.base_resp.err_msg) := by
  unfold getArticleList
  rw [if_neg h0, if_neg h1]

/-- Witness for C3 at a concrete response with ret -1 and message X. -/
theorem C3_witness :
    getArticleList ⟨⟨-1, "X"⟩, ""⟩ = .error (.error "X") :=
  C3_getArticleList_serverMessage ⟨⟨-1, "X"⟩, ""⟩ (by decide) (by decide)

theorem benignExc_bind {r : Except JsErr α} {f : α → Except JsErr β}
    (hr : benignExc r) (hf : ∀ a, benignExc (f a)) : benignExc (r >>= f) := by
  rcases hr with ⟨a, ha⟩ | ha | ha <;> rw [ha]
  · exact hf a
  · exact Or.inr (Or.inl rfl)
  · exact Or.inr (Or.inr rfl)

theorem benignExc_pure (a : α) : benignExc (pure a : Except JsErr α) :=
  Or.inl ⟨a, rfl⟩

theorem benignExc_jsonParseJS (s : String) : benignExc (jsonParseJS s) := by
  unfold jsonParseJS
  rcases parseValue (2 * s.length + 2) s.data with _ | ⟨v, rest⟩
  · exact Or.inr (Or.inl rfl)
  · by_cases h : (skipWs rest).isEmpty
    · exact Or.inl ⟨v, by simp [h]⟩
    · refine Or.inr (Or.inl ?_)
      simp [h]

theorem benignExc_jsGetProp (v : Json) (k : String) : benignExc (jsGetProp v k) := by
  cases v with
  | null => exact Or.inr (Or.inr rfl)
  | bool b => exact Or.inl ⟨.undefined, rfl⟩
  | num m e => exact Or.inl ⟨.undefined, rfl⟩
  | str s => exact Or.inl ⟨.undefined, rfl⟩
  | arr xs => exact Or.inl ⟨.undefined, rfl⟩
  | obj kvs =>
    rcases h : objLookup kvs k with _ | x
    · exact Or.inl ⟨.undefined, by simp [jsGetProp, h]⟩
    · exact Or.inl ⟨.val x, by simp [jsGetProp, h]⟩

theorem benignExc_jsAsArray (v : JsVal) : benignExc (jsAsArray v) := by
  unfold jsAsArray
  rcases v with _ | j
  · exact Or.inr (Or.inr rfl)
  · cases j <;> first
      | exact Or.inl ⟨_, rfl⟩
      | exact Or.inr (Or.inr rfl)

theorem benignExc_exceptFilter (p : α → Except JsErr Bool)
    (hp : ∀ a, benignExc (p a)) : ∀ l, benignExc (exceptFilter p l)
  | [] => Or.inl ⟨[], rfl⟩
  | x :: xs => by
    show benignExc (p x >>= fun b => exceptFilter p xs >>= fun rest =>
      pure (if b then x :: rest else rest))
    exact benignExc_bind (hp x) (fun b =>
      benignExc_bind (benignExc_exceptFilter p hp xs) (fun rest => benignExc_pure _))

theorem benignExc_exceptFlatMap (f : α → Except JsErr JsVal)
    (hf : ∀ a, benignExc (f a)) : ∀ l, benignExc (exceptFlatMap f l)
  | [] => Or.inl ⟨[], rfl⟩
  | x :: xs => by
    show benignExc (f x >>= fun v => exceptFlatMap f xs >>= fun rest =>
      pure (flattenOne v ++ rest))
    exact benignExc_bind (hf x) (fun v =>
      benignExc_bind (benignExc_exceptFlatMap f hf xs) (fun rest => benignExc_pure _))

/-- Counterexample for claim C8: a response with ret 0 whose publish_page
string is not valid JSON makes getArticleList fail with the SyntaxError thrown
by JSON.parse, a third failure kind distinct from the session-expired Error
and from the generic Error carrying this response's err_msg. -/
theorem C8_counterexample :
    getArticleList ⟨⟨0, "server says no"⟩, "oops"⟩ = .error .syntaxError ∧
    JsErr.syntaxError ≠ JsErr.error "session expired" ∧
    JsErr.syntaxError ≠ JsErr.error "server says no" := by
  refine ⟨rfl, ?_, ?_⟩ <;> decide

/-- Claim C8 (amended): getArticleList surfaces the session-expired Error for
ret 200003 and the generic Error carrying err_msg for other non-zero codes;
in addition, when ret is 0 a malformed doubly-JSON-encoded payload surfaces
the decoding failure (a JSON SyntaxError or a TypeError) to the caller. -/
theorem C8_getArticleList_failureKinds (resp : AppMsgPublishResponse) :
    (∃ xs, getArticleList resp = .ok xs) ∨
    (getArticleList resp = .error (.error "session expired") ∧
      resp.base_resp.ret = 200003) ∨
    (getArticleList resp = .error (.error resp.base_resp.err_msg) ∧
      resp.base_resp.ret ≠ 0 ∧ resp.base_resp.ret ≠ 200003) ∨
    ((getArticleList resp = .error .syntaxError ∨
      getArticleList resp = .error .typeError) ∧ resp.base_resp.ret = 0) := by
  by_cases h0 : resp.base_resp.ret = 0
  · have hb : benignExc (getArticleList resp) := by
      unfold getArticleList
      rw [if_pos h0]
      refine benignExc_bind (benignExc_jsonParseJS _) (fun pp => ?_)
      refine benignExc_bind (benignExc_jsGetProp _ _) (fun raw => ?_)
      refine benignExc_bind (benignExc_jsAsArray _) (fun full => ?_)
      refine benignExc_bind (benignExc_exceptFilter _ (fun a => ?_) _) (fun pl => ?_)
      · exact benignExc_bind (benignExc_jsGetProp _ _) (fun v => benignExc_pure _)
      · by_cases hl : pl.length = 0
        · rw [if_pos hl]
          exact benignExc_pure _
        · rw [if_neg hl]
          refine benignExc_exceptFlatMap _ (fun a => ?_) _
          refine benignExc_bind (benignExc_jsGetProp _ _) (fun v => ?_)
          exact benignExc_bind (benignExc_jsonParseJS _) (fun pj => benignExc_jsGetProp _ _)
    rcases hb with ⟨xs, hxs⟩ | hs | ht
    · exact Or.inl ⟨xs, hxs⟩
    · exact Or.inr (Or.inr (Or.inr ⟨Or.inl hs, h0⟩))
    · exact Or.inr (Or.inr (Or.inr ⟨Or.inr ht, h0⟩))
  · by_cases h1 : resp.base_resp.ret = 200003
    · refine Or.inr (Or.inl ⟨?_, h1⟩)
      unfold getArticleList
      rw [if_neg h0, if_pos h1]
    · refine Or.inr (Or.inr (Or.inl ⟨?_, h0, h1⟩))
      unfold getArticleList
      rw [if_neg h0, if_neg h1]

/-- Claim C4: given the fetched HTML string, downloadArticleHTML fails with
the generic download-failed Error exactly when the parsed document has no
page-content element, and returns the raw fetched string unchanged when the
element is present. -/
theorem C4_downloadArticleHTML_marker
    (env : Env) (articleURL html : String) (title : Option String)
    (hfetch : env.fetchText ("/api/download?url=" ++ encodeURIComponent articleURL) =
      .ok html) :
    (downloadArticleHTML env articleURL title).1 =
      (match findById "page-content" (env.parseHTML html) with
       | none => .error (.error "下载失败，请重试")
       | some _ => .ok html) := by
  unfold downloadArticleHTML
  rw [hfetch]
  rcases h2 : findById "page-content" (env.parseHTML html) with _ | r <;> simp [h2]

/-- Witness for C4: an environment whose parser yields a document without the
page-content element makes the download fail, and one whose parser yields the
element makes it return the fetched string. -/
theorem C4_witness :
    (downloadArticleHTML
      ⟨fun _ => .text "x", fun _ => .ok "<p>hi</p>", fun _ => .error "", fun _ => none,
        fun _ => ""⟩ "u" none).1 = .error (.error "下载失败，请重试") ∧
    (downloadArticleHTML
      ⟨fun _ => .elem "div" [("id", "page-content")] [], fun _ => .ok "<p>hi</p>",
        fun _ => .error "", fun _ => none, fun _ => ""⟩ "u" none).1 = .ok "<p>hi</p>" := by
  constructor
  · exact (C4_downloadArticleHTML_marker
      ⟨fun _ => .text "x", fun _ => .ok "<p>hi</p>", fun _ => .error "", fun _ => none,
        fun _ => ""⟩ "u" "<p>hi</p>" none rfl).trans rfl
  · exact (C4_downloadArticleHTML_marker
      ⟨fun _ => .elem "div" [("id", "page-content")] [], fun _ => .ok "<p>hi</p>",
        fun _ => .error "", fun _ => none, fun _ => ""⟩ "u" "<p>hi</p>" none rfl).trans rfl

/-- Claim C9: the result of downloadArticleHTML (success value or failure) is
the same whatever the optional title argument is; the title only influences
the diagnostic console output. -/
theorem C9_downloadArticleHTML_titleIndependent
    (env : Env) (articleURL : String) (t1 t2 : Option String) :
    (downloadArticleHTML env articleURL t1).1 = (downloadArticleHTML env articleURL t2).1 := by
  unfold downloadArticleHTML
  rcases hf : env.fetchText ("/api/download?url=" ++ encodeURIComponent articleURL) with e | h
  · rfl
  · rcases h2 : findById "page-content" (env.parseHTML h) with _ | r <;> simp [h2]

example :
    (packHTMLAssets
      ⟨fun _ => .elem "div" [("id", "page-content")]
          [.elem "img" [("src", "http://a/1.png")] [],
           .elem "img" [("src", "http://a/2.png")] []],
        fun _ => .error "no css",
        fun u => if u = "http://a/1.png" then .ok ⟨"IMG1", "image/png"⟩ else .error "404",
        fun t => if t = "image/png" then some "png" else none,
        fun n => "u" ++ toString n⟩
      "x" none).map (fun z => z.map (fun e => e.name)) =
    .ok ["assets/", "assets/u0.png", "index.html"] := rfl

example :
    serializeN (.elem "div" [("style", "background: url(\"http://x/b.png\")")] []) =
    "<div style=\"background: url(&quot;http://x/b.png&quot;)\"></div>" := rfl

example :
    segUrls (scanBgStr
      "<div style=\"background: url(&quot;http://x/b.png&quot;)\"></div><p style=\"background-image: url(&quot;http://x/b.png&quot;)\"></p>") =
    ["http://x/b.png", "http://x/b.png"] := rfl

example :
    rewriteSegs [("http://x/b.png", "assets/u1.png")] (scanBgStr
      "<i style=\"background: url(&quot;http://x/b.png&quot;)\"></i>") =
    "<i style=\"background: url(&quot;./assets/u1.png&quot;)\"></i>" := rfl

/-- Claim C5: for every HTML input whose parsed document lacks the
page-content element, packHTMLAssets fails with the TypeError produced by the
unguarded non-null assertion, rather than returning an archive. -/
theorem C5_packHTMLAssets_missingContainer
    (env : Env) (html : String) (zipArg : Option (List ZipEntry))
    (h : findById "page-content" (env.parseHTML html) = none) :
    packHTMLAssets env html zipArg = .error .typeError := by
  simp only [packHTMLAssets, h]

/-- Witness for C5: a parser yielding a bare text node makes packHTMLAssets
throw the TypeError. -/
theorem C5_witness :
    packHTMLAssets
      ⟨fun _ => .text "empty", fun _ => .error "", fun _ => .error "", fun _ => none,
        fun _ => ""⟩ "x" none = .error .typeError :=
  C5_packHTMLAssets_missingContainer
    ⟨fun _ => .text "empty", fun _ => .error "", fun _ => .error "", fun _ => none,
      fun _ => ""⟩ "x" none rfl

/-! ## Archive lemmas -/

theorem zipLookup_zipFile_self : ∀ (z : List ZipEntry) (p : String) (d : ZipData),
    zipLookup (zipFile z p d) p = some d
  | [], p, d => by simp [zipFile, zipLookup]
  | e :: z, p, d => by
    by_cases he : e.name = p
    · simp only [zipFile, if_pos he, zipLookup]
      simp
    · simp only [zipFile, if_neg he, zipLookup, if_neg he]
      exact zipLookup_zipFile_self z p d

theorem zipLookup_zipFile_other : ∀ (z : List ZipEntry) (p q : String) (d : ZipData),
    q ≠ p → zipLookup (zipFile z p d) q = zipLookup z q
  | [], p, q, d, h => by
    have hpq : ¬ (p = q) := fun hh => h hh.symm
    simp only [zipFile, zipLookup]
    simp [hpq]
  | e :: z, p, q, d, h => by
    have hpq : ¬ (p = q) := fun hh => h hh.symm
    by_cases he : e.name = p
    · simp only [zipFile, if_pos he, zipLookup]
      have h2 : ¬ (e.name = q) := by
        rw [he]
        exact hpq
      simp [hpq, h2]
    · simp only [zipFile, if_neg he, zipLookup]
      by_cases heq : e.name = q
      · rw [if_pos heq, if_pos heq]
      · rw [if_neg heq, if_neg heq]
        exact zipLookup_zipFile_other z p q d h

theorem zipLookup_zipFolder_of_some : ∀ (z : List ZipEntry) (f p : String) (d : ZipData),
    zipLookup z p = some d → zipLookup (zipFolder z f) p = some d
  | [], f, p, d, h => by simp [zipLookup] at h
  | e :: z, f, p, d, h => by
    by_cases hef : e.name = f
    · simpa [zipFolder, if_pos hef] using h
    · simp only [zipFolder, if_neg hef]
      by_cases hep : e.name = p
      · simp only [zipLookup, if_pos hep] at h ⊢
        exact h
      · simp only [zipLookup, if_neg hep] at h ⊢
        exact zipLookup_zipFolder_of_some z f p d h

theorem zipLookup_mem_names : ∀ (z : List ZipEntry) (p : String) (d : ZipData),
    zipLookup z p = some d → p ∈ zipNames z
  | [], p, d, h => by simp [zipLookup] at h
  | e :: z, p, d, h => by
    by_cases hep : e.name = p
    · simp [zipNames, hep]
    · simp only [zipLookup, if_neg hep] at h
      simp only [zipNames, List.map_cons, List.mem_cons]
      exact Or.inr (zipLookup_mem_names z p d h)

theorem zipNames_zipFile : ∀ (z : List ZipEntry) (p : String) (d : ZipData),
    zipNames (zipFile z p d) = zipNames z ∨
      (zipNames (zipFile z p d) = zipNames z ++ [p] ∧ p ∉ zipNames z)
  | [], p, d => Or.inr ⟨by simp [zipFile, zipNames], by simp [zipNames]⟩
  | e :: z, p, d => by
    by_cases he : e.name = p
    · left
      have hz : zipFile (e :: z) p d = ⟨p, d⟩ :: z := by
        simp only [zipFile, if_pos he]
      rw [hz]
      simp [zipNames, he]
    · rcases zipNames_zipFile z p d with h | ⟨h1, h2⟩
      · left
        simp only [zipFile, if_neg he, zipNames, List.map_cons]
        rw [show List.map (fun e => e.name) (zipFile z p d) = zipNames (zipFile z p d) from rfl,
          h]
        rfl
      · right
        constructor
        · simp only [zipFile, if_neg he, zipNames, List.map_cons]
          rw [show List.map (fun e => e.name) (zipFile z p d) = zipNames (zipFile z p d) from
            rfl, h1]
          rfl
        · simp only [zipNames, List.map_cons, List.mem_cons]
          push_neg
          exact ⟨fun hh => he hh.symm, by simpa [zipNames] using h2⟩

theorem zipNames_zipFolder : ∀ (z : List ZipEntry) (f : String),
    zipNames (zipFolder z f) = zipNames z ∨
      (zipNames (zipFolder z f) = zipNames z ++ [f] ∧ f ∉ zipNames z)
  | [], f => Or.inr ⟨by simp [zipFolder, zipNames], by simp [zipNames]⟩
  | e :: z, f => by
    by_cases he : e.name = f
    · left
      simp only [zipFolder, if_pos he]
    · rcases zipNames_zipFolder z f with h | ⟨h1, h2⟩
      · left
        simp only [zipFolder, if_neg he, zipNames, List.map_cons]
        rw [show List.map (fun e => e.name) (zipFolder z f) = zipNames (zipFolder z f) from rfl,
          h]
        rfl
      · right
        constructor
        · simp only [zipFolder, if_neg he, zipNames, List.map_cons]
          rw [show List.map (fun e => e.name) (zipFolder z f) = zipNames (zipFolder z f) from
            rfl, h1]
          rfl
        · simp only [zipNames, List.map_cons, List.mem_cons]
          push_neg
          exact ⟨fun hh => he hh.symm, by simpa [zipNames] using h2⟩

theorem nodup_names_zipFile (z : List ZipEntry) (p : String) (d : ZipData)
    (h : (zipNames z).Nodup) : (zipNames (zipFile z p d)).Nodup := by
  rcases zipNames_zipFile z p d with h1 | ⟨h1, h2⟩
  · rwa [h1]
  · rw [h1]
    simp [List.nodup_append, h, h2]

theorem nodup_names_zipFolder (z : List ZipEntry) (f : String)
    (h : (zipNames z).Nodup) : (zipNames (zipFolder z f)).Nodup := by
  rcases zipNames_zipFolder z f with h1 | ⟨h1, h2⟩
  · rwa [h1]
  · rw [h1]
    simp [List.nodup_append, h, h2]

theorem zipLookup_foldFiles_notmem : ∀ (fs : List (String × Blob)) (z : List ZipEntry)
    (p : String), p ∉ fs.map Prod.fst →
    zipLookup (foldFiles z fs) p = zipLookup z p
  | [], z, p, _ => rfl
  | pb :: fs, z, p, h => by
    simp only [List.map_cons, List.mem_cons] at h
    push_neg at h
    rw [show foldFiles z (pb :: fs) = foldFiles (zipFile z pb.1 (.blobData pb.2)) fs from rfl,
      zipLookup_foldFiles_notmem fs _ p h.2,
      zipLookup_zipFile_other _ _ _ _ h.1]

theorem zipLookup_foldFiles_mem : ∀ (fs : List (String × Blob)) (z : List ZipEntry)
    (pb : String × Blob), (fs.map Prod.fst).Nodup → pb ∈ fs →
    zipLookup (foldFiles z fs) pb.1 = some (.blobData pb.2)
  | qc :: fs, z, pb, hnd, hmem => by
    simp only [List.map_cons, List.nodup_cons] at hnd
    rcases List.mem_cons.mp hmem with rfl | hmem2
    · rw [show foldFiles z (pb :: fs) = foldFiles (zipFile z pb.1 (.blobData pb.2)) fs from rfl,
        zipLookup_foldFiles_notmem fs _ pb.1 hnd.1, zipLookup_zipFile_self]
    · exact zipLookup_foldFiles_mem fs _ pb hnd.2 hmem2

theorem nodup_names_foldFiles : ∀ (fs : List (String × Blob)) (z : List ZipEntry),
    (zipNames z).Nodup → (zipNames (foldFiles z fs)).Nodup
  | [], _, h => h
  | pb :: fs, z, h => nodup_names_foldFiles fs _ (nodup_names_zipFile z pb.1 _ h)

theorem zipLookup_foldTexts_notmem : ∀ (fs : List (String × String)) (z : List ZipEntry)
    (p : String), p ∉ fs.map Prod.fst →
    zipLookup (foldTexts z fs) p = zipLookup z p
  | [], z, p, _ => rfl
  | ps :: fs, z, p, h => by
    simp only [List.map_cons, List.mem_cons] at h
    push_neg at h
    rw [show foldTexts z (ps :: fs) = foldTexts (zipFile z ps.1 (.textData ps.2)) fs from rfl,
      zipLookup_foldTexts_notmem fs _ p h.2,
      zipLookup_zipFile_other _ _ _ _ h.1]

theorem nodup_names_foldTexts : ∀ (fs : List (String × String)) (z : List ZipEntry),
    (zipNames z).Nodup → (zipNames (foldTexts z fs)).Nodup
  | [], _, h => h
  | ps :: fs, z, h => nodup_names_foldTexts fs _ (nodup_names_zipFile z ps.1 _ h)

/-! ## Characterization of the image phase -/

theorem attrGet_setAttr : ∀ (a : List (String × String)) (k v : String),
    (attrGet a k).isSome = true → attrGet (setAttr a k v) k = some v
  | [], k, v, h => by simp [attrGet] at h
  | kv :: a, k, v, h => by
    by_cases hk : kv.1 = k
    · simp [attrGet, setAttr, hk]
    · simp only [attrGet, if_neg hk] at h
      have ih := attrGet_setAttr a k v h
      have hstep : setAttr (kv :: a) k v = kv :: setAttr a k v := by
        simp [setAttr, hk]
      rw [hstep]
      simp only [attrGet, if_neg hk]
      exact ih

theorem foldFiles_append : ∀ (u v : List (String × Blob)) (z : List ZipEntry),
    foldFiles z (u ++ v) = foldFiles (foldFiles z u) v
  | [], v, z => rfl
  | pb :: u, v, z => by
    simp only [List.cons_append, foldFiles]
    exact foldFiles_append u v _

theorem imgFetchCount_append (env : Env) :
    ∀ u v : List String, imgFetchCount env (u ++ v) = imgFetchCount env u + imgFetchCount env v
  | [], v => by simp [imgFetchCount]
  | s :: u, v => by
    have ih := imgFetchCount_append env u v
    simp only [List.cons_append, imgFetchCount, List.append_eq] at ih ⊢
    omega

theorem expectedImgFiles_append (env : Env) :
    ∀ (u v : List String) (n : Nat),
    expectedImgFiles env n (u ++ v) =
      expectedImgFiles env n u ++ expectedImgFiles env (n + imgFetchCount env u) v
  | [], v, n => by simp [expectedImgFiles, imgFetchCount]
  | s :: u, v, n => by
    by_cases hs : s = ""
    · have ih := expectedImgFiles_append env u v n
      simp only [List.append_eq] at ih
      simp only [List.cons_append, expectedImgFiles, imgFetchCount, if_pos hs, List.append_eq, ih,
        Nat.zero_add]
    · rcases hf : env.fetchBlob s with e | b
      · have ih := expectedImgFiles_append env u v n
        simp only [List.append_eq] at ih
        simp only [List.cons_append, expectedImgFiles, imgFetchCount, if_neg hs, hf, List.append_eq,
          ih, Nat.zero_add]
      · have ih := expectedImgFiles_append env u v (n + 1)
        simp only [List.append_eq] at ih
        simp only [List.cons_append, expectedImgFiles, imgFetchCount, if_neg hs, hf, List.append_eq,
          ih]
        rw [Nat.add_assoc]

theorem expectedImgSrcs_append (env : Env) :
    ∀ (u v : List String) (n : Nat),
    expectedImgSrcs env n (u ++ v) =
      expectedImgSrcs env n u ++ expectedImgSrcs env (n + imgFetchCount env u) v
  | [], v, n => by simp [expectedImgSrcs, imgFetchCount]
  | s :: u, v, n => by
    by_cases hs : s = ""
    · have ih := expectedImgSrcs_append env u v n
      simp only [List.append_eq] at ih
      simp only [List.cons_append, expectedImgSrcs, imgFetchCount, if_pos hs, List.append_eq, ih,
        Nat.zero_add]
    · rcases hf : env.fetchBlob s with e | b
      · have ih := expectedImgSrcs_append env u v n
        simp only [List.append_eq] at ih
        simp only [List.cons_append, expectedImgSrcs, imgFetchCount, if_neg hs, hf, List.append_eq,
          ih, Nat.zero_add]
      · have ih := expectedImgSrcs_append env u v (n + 1)
        simp only [List.append_eq] at ih
        simp only [List.cons_append, expectedImgSrcs, imgFetchCount, if_neg hs, hf, List.append_eq,
          ih]
        rw [Nat.add_assoc]

mutual

theorem imgPhaseN_spec (env : Env) : ∀ (nd : Node) (st : PackSt),
    (imgPhaseN env nd st).2.zip =
        foldFiles st.zip (expectedImgFiles env st.ctr (imgSrcsN nd)) ∧
    (imgPhaseN env nd st).2.ctr = st.ctr + imgFetchCount env (imgSrcsN nd) ∧
    imgSrcsN (imgPhaseN env nd st).1 = expectedImgSrcs env st.ctr (imgSrcsN nd)
  | .text s, st => by
    simp [imgPhaseN, imgSrcsN, expectedImgFiles, expectedImgSrcs, imgFetchCount, foldFiles]
  | .elem t a cs, st => by
    by_cases hg : t = "img" ∧ (attrGet a "src").isSome = true
    · by_cases hsrc : (attrGet a "src").getD "" = ""
      · obtain ⟨h1, h2, h3⟩ := imgPhaseL_spec env cs st
        refine ⟨?_, ?_, ?_⟩
        · simp only [imgPhaseN, if_pos hg, if_pos hsrc, hsrc, eq_self_iff_true, if_true,
            imgSrcsN, expectedImgFiles]
          exact h1
        · simp only [imgPhaseN, if_pos hg, if_pos hsrc, hsrc, eq_self_iff_true, if_true,
            imgSrcsN, imgFetchCount, Nat.zero_add]
          exact h2
        · simp only [imgPhaseN, if_pos hg, if_pos hsrc, hsrc, eq_self_iff_true, if_true,
            imgSrcsN, expectedImgSrcs]
          rw [h3]
      · rcases hf : env.fetchBlob ((attrGet a "src").getD "") with e | b
        · obtain ⟨h1, h2, h3⟩ := imgPhaseL_spec env cs st
          refine ⟨?_, ?_, ?_⟩
          · simp only [imgPhaseN, if_pos hg, if_neg hsrc, hf, imgSrcsN, expectedImgFiles,
              if_neg hsrc]
            exact h1
          · simp only [imgPhaseN, if_pos hg, if_neg hsrc, hf, imgSrcsN, imgFetchCount,
              if_neg hsrc, Nat.zero_add]
            rw [h2]
          · simp only [imgPhaseN, if_pos hg, if_neg hsrc, hf, imgSrcsN, if_pos hg,
              expectedImgSrcs, if_neg hsrc]
            rw [h3]
        · obtain ⟨h1, h2, h3⟩ := imgPhaseL_spec env cs
            ⟨zipFile st.zip
              ("assets/" ++ env.uuid st.ctr ++ "." ++ (env.mimeExt b.type).getD "null")
              (.blobData b), st.ctr + 1⟩
          have hset := attrGet_setAttr a "src"
            ("./" ++ ("assets/" ++ env.uuid st.ctr ++ "." ++ (env.mimeExt b.type).getD "null"))
            hg.2
          refine ⟨?_, ?_, ?_⟩
          · simp only [imgPhaseN, if_pos hg, if_neg hsrc, hf, imgSrcsN, expectedImgFiles,
              if_neg hsrc, assetPath, blobExt, foldFiles]
            exact h1
          · simp only [imgPhaseN, if_pos hg, if_neg hsrc, hf, imgSrcsN, imgFetchCount,
              if_neg hsrc]
            rw [h2]
            show st.ctr + 1 + imgFetchCount env (imgSrcsL cs) =
              st.ctr + (1 + imgFetchCount env (imgSrcsL cs))
            omega
          · simp only [imgPhaseN, if_pos hg, if_neg hsrc, hf, imgSrcsN, expectedImgSrcs,
              if_neg hsrc, assetPath, blobExt]
            rw [if_pos ⟨hg.1, by rw [hset]; rfl⟩, hset]
            simp only [Option.getD_some]
            rw [h3]
    · obtain ⟨h1, h2, h3⟩ := imgPhaseL_spec env cs st
      refine ⟨?_, ?_, ?_⟩
      · simp only [imgPhaseN, if_neg hg, imgSrcsN]
        exact h1
      · simp only [imgPhaseN, if_neg hg, imgSrcsN]
        exact h2
      · simp only [imgPhaseN, if_neg hg, imgSrcsN, if_neg hg]
        exact h3

theorem imgPhaseL_spec (env : Env) : ∀ (l : List Node) (st : PackSt),
    (imgPhaseL env l st).2.zip =
        foldFiles st.zip (expectedImgFiles env st.ctr (imgSrcsL l)) ∧
    (imgPhaseL env l st).2.ctr = st.ctr + imgFetchCount env (imgSrcsL l) ∧
    imgSrcsL (imgPhaseL env l st).1 = expectedImgSrcs env st.ctr (imgSrcsL l)
  | [], st => by
    simp [imgPhaseL, imgSrcsL, expectedImgFiles, expectedImgSrcs, imgFetchCount, foldFiles]
  | c :: cs, st => by
    obtain ⟨h1, h2, h3⟩ := imgPhaseN_spec env c st
    obtain ⟨g1, g2, g3⟩ := imgPhaseL_spec env cs (imgPhaseN env c st).2
    refine ⟨?_, ?_, ?_⟩
    · simp only [imgPhaseL, imgSrcsL, expectedImgFiles_append env _ _ st.ctr,
        foldFiles_append]
      rw [g1, h1, h2]
    · simp only [imgPhaseL, imgSrcsL, imgFetchCount_append env]
      rw [g2, h2]
      omega
    · simp only [imgPhaseL, imgSrcsL, expectedImgSrcs_append env _ _ st.ctr]
      rw [g3, h3, h2]

end

theorem bgFetchLoop_spec (env : Env) : ∀ (urls : List String) (st : PackSt)
    (m : List (String × String)),
    bgFetchLoop env urls st m =
      (⟨foldFiles st.zip (expectedBgFiles env st.ctr urls),
        st.ctr + bgFetchCount env urls⟩,
       m ++ expectedBgMap env st.ctr urls)
  | [], st, m => by
    simp [bgFetchLoop, expectedBgFiles, expectedBgMap, bgFetchCount, foldFiles]
  | url :: rest, st, m => by
    rcases hf : env.fetchBlob url with e | b
    · have ih := bgFetchLoop_spec env rest st m
      simp only [bgFetchLoop, hf, ih, expectedBgFiles, expectedBgMap, bgFetchCount,
        Nat.zero_add]
    · have ih := bgFetchLoop_spec env rest
        ⟨zipFile st.zip
          ("assets/" ++ env.uuid st.ctr ++ "." ++ (env.mimeExt b.type).getD "null")
          (.blobData b), st.ctr + 1⟩
        (m ++ [(url, "assets/" ++ env.uuid st.ctr ++ "." ++ (env.mimeExt b.type).getD "null")])
      simp only [bgFetchLoop, hf, ih, expectedBgFiles, expectedBgMap, bgFetchCount,
        assetPath, blobExt, foldFiles, Prod.mk.injEq, PackSt.mk.injEq, List.append_assoc,
        List.singleton_append, Nat.add_assoc]

theorem cssLoop_spec (env : Env) : ∀ (links : List String) (st : PackSt) (acc : String),
    cssLoop env links st acc =
      (⟨foldTexts st.zip (expectedCssFiles env st.ctr links),
        st.ctr + cssFetchCount env links⟩,
       acc ++ expectedCssLinks env st.ctr links)
  | [], st, acc => by
    simp [cssLoop, expectedCssFiles, expectedCssLinks, cssFetchCount, foldTexts]
  | url :: rest, st, acc => by
    rcases hf : env.fetchText url with e | txt
    · have ih := cssLoop_spec env rest st acc
      simp only [cssLoop, hf, ih, expectedCssFiles, expectedCssLinks, cssFetchCount,
        Nat.zero_add]
    · have ih := cssLoop_spec env rest
        ⟨zipFile st.zip ("assets/" ++ env.uuid st.ctr ++ ".css") (.textData txt),
          st.ctr + 1⟩
        (acc ++ "<link rel=\"stylesheet\" href=\"./assets/" ++ env.uuid st.ctr ++ ".css\">")
      simp only [cssLoop, hf, expectedCssFiles, expectedCssLinks, cssFetchCount, foldTexts]
      rw [ih]
      simp only [Prod.mk.injEq, PackSt.mk.injEq]
      refine ⟨⟨trivial, ?_⟩, ?_⟩
      · show st.ctr + 1 + cssFetchCount env rest = st.ctr + (1 + cssFetchCount env rest)
        omega
      · simp only [String.append_assoc]

theorem packHTMLAssets_run (env : Env) (html : String) (zipArg : Option (List ZipEntry))
    (pcTag : String) (pcAttrs : List (String × String)) (pcChildren : List Node)
    (hpc : findById "page-content" (env.parseHTML html) = some (pcTag, pcAttrs, pcChildren)) :
    packHTMLAssets env html zipArg =
      .ok (packExpectedZip env zipArg (env.parseHTML html) pcTag pcAttrs pcChildren) := by
  obtain ⟨h1, h2, h3⟩ := imgPhaseL_spec env (cleanupChildren pcChildren)
    ⟨zipFolder (zipArg.getD []) "assets/", 0⟩
  simp only [packHTMLAssets, hpc, packExpectedZip, packIndexHTML, packContent2, packBgMap,
    packC2, packC1, packUrls, packSegs, packImgOut, packSrcs, cleanupChildren]
  rw [bgFetchLoop_spec, cssLoop_spec]
  simp only [List.nil_append]
  rw [show (cleanupChildren pcChildren) =
    removeScriptsF
      (remFirstByIdF "js_temp_bottom_area"
        (remFirstByIdF "content_bottom_area"
          (remFirstByIdF "js_tags_preview_toast"
            (remAttrFirstByIdF "js_content" "style" pcChildren).1).1).1).1 from rfl] at h1 h2
  rw [h1, h2]
  simp only [Nat.zero_add, String.empty_append]

theorem expectedImgFiles_length (env : Env) :
    ∀ (srcs : List String) (n : Nat), "" ∉ srcs →
    (expectedImgFiles env n srcs).length = (srcs.filter (fetchOkB env)).length
  | [], _, _ => rfl
  | s :: ss, n, h => by
    have hs : ¬ s = "" := fun hh => h (by simp [hh])
    have hmem : "" ∉ ss := fun hh => h (List.mem_cons_of_mem s hh)
    rcases hf : env.fetchBlob s with e | b
    · simp [expectedImgFiles, hs, hf, List.filter_cons, fetchOkB,
        expectedImgFiles_length env ss n hmem]
    · simp [expectedImgFiles, hs, hf, List.filter_cons, fetchOkB,
        expectedImgFiles_length env ss (n + 1) hmem]

theorem imgClaimRelF_mono (env : Env) (F G : List (String × Blob))
    (hFG : ∀ x ∈ F, x ∈ G) (s s2 : String) (h : imgClaimRelF env F s s2) :
    imgClaimRelF env G s s2 := by
  unfold imgClaimRelF at h ⊢
  rcases hf : env.fetchBlob s with e | b
  · rw [hf] at h
    exact h
  · rw [hf] at h
    obtain ⟨p, h1, h2⟩ := h
    exact ⟨p, h1, hFG _ h2⟩

theorem expectedImgSrcs_rel (env : Env) :
    ∀ (srcs : List String) (n : Nat), "" ∉ srcs →
    List.Forall₂ (imgClaimRelF env (expectedImgFiles env n srcs)) srcs
      (expectedImgSrcs env n srcs)
  | [], _, _ => List.Forall₂.nil
  | s :: ss, n, h => by
    have hs : ¬ s = "" := fun hh => h (by simp [hh])
    have hmem : "" ∉ ss := fun hh => h (List.mem_cons_of_mem s hh)
    rcases hf : env.fetchBlob s with e | b
    · have ih := expectedImgSrcs_rel env ss n hmem
      simp only [expectedImgSrcs, if_neg hs, hf, expectedImgFiles]
      refine List.Forall₂.cons ?_ ih
      unfold imgClaimRelF
      rw [hf]
    · have ih := expectedImgSrcs_rel env ss (n + 1) hmem
      simp only [expectedImgSrcs, if_neg hs, hf, expectedImgFiles]
      refine List.Forall₂.cons ?_
        (List.Forall₂.imp
          (fun a b hab =>
            imgClaimRelF_mono env _ _ (fun x hx => List.mem_cons_of_mem _ hx) a b hab) ih)
      unfold imgClaimRelF
      rw [hf]
      exact ⟨assetPath env n (blobExt env b), rfl, List.mem_cons_self _ _⟩

/-- Claim C6: in a packHTMLAssets run whose cleaned content container holds
pairwise distinct non-empty image sources, the archive receives exactly one
image file per fetchable source (M files for M fetchable of the N sources),
each holding the fetched blob and referenced by the rewritten src attribute of
its image, while every unfetchable source keeps its original remote src
unchanged. -/
theorem C6_packHTMLAssets_imageFiles
    (env : Env) (html : String) (zipArg : Option (List ZipEntry))
    (pcTag : String) (pcAttrs : List (String × String)) (pcChildren : List Node)
    (Z2 : List ZipEntry)
    (hpc : findById "page-content" (env.parseHTML html) = some (pcTag, pcAttrs, pcChildren))
    (hnodupS : (packSrcs env pcChildren).Nodup)
    (hne : "" ∉ packSrcs env pcChildren)
    (hfresh : ("index.html" ::
      ((expectedImgFiles env 0 (packSrcs env pcChildren)).map Prod.fst ++
        ((expectedBgFiles env (packC1 env pcChildren)
            (packUrls env zipArg pcTag pcAttrs pcChildren)).map Prod.fst ++
          (expectedCssFiles env (packC2 env zipArg pcTag pcAttrs pcChildren)
            (linkHrefsN false (env.parseHTML html))).map Prod.fst))).Nodup)
    (hrun : packHTMLAssets env html zipArg = .ok Z2) :
    (expectedImgFiles env 0 (packSrcs env pcChildren)).length =
        ((packSrcs env pcChildren).filter (fetchOkB env)).length ∧
    ((expectedImgFiles env 0 (packSrcs env pcChildren)).map Prod.fst).Nodup ∧
    (expectedImgFiles env 0 (packSrcs env pcChildren)).map
        (fun pb => zipLookup Z2 pb.1) =
      (expectedImgFiles env 0 (packSrcs env pcChildren)).map
        (fun pb => some (ZipData.blobData pb.2)) ∧
    imgSrcsL (packImgOut env zipArg pcChildren) =
        expectedImgSrcs env 0 (packSrcs env pcChildren) ∧
    List.Forall₂ (imgClaimRel env Z2) (packSrcs env pcChildren)
      (imgSrcsL (packImgOut env zipArg pcChildren)) := by
  rw [packHTMLAssets_run env html zipArg pcTag pcAttrs pcChildren hpc] at hrun
  have hZ := Except.ok.inj hrun
  subst hZ
  have hcons := List.nodup_cons.mp hfresh
  have happ := hcons.2
  have hF1nodup := happ.of_append_left
  have hdisj := List.disjoint_of_nodup_append happ
  have hentry : ∀ pb ∈ expectedImgFiles env 0 (packSrcs env pcChildren),
      zipLookup (packExpectedZip env zipArg (env.parseHTML html) pcTag pcAttrs pcChildren)
        pb.1 = some (.blobData pb.2) := by
    intro pb hmem
    have hp1 := List.mem_map_of_mem Prod.fst hmem
    have hidx : pb.1 ≠ "index.html" := by
      intro hh
      exact hcons.1 (List.mem_append_left _ (hh ▸ hp1))
    have hF23 := hdisj hp1
    have hF2 : pb.1 ∉ (expectedBgFiles env (packC1 env pcChildren)
        (packUrls env zipArg pcTag pcAttrs pcChildren)).map Prod.fst :=
      fun hh => hF23 (List.mem_append_left _ hh)
    have hF3 : pb.1 ∉ (expectedCssFiles env (packC2 env zipArg pcTag pcAttrs pcChildren)
        (linkHrefsN false (env.parseHTML html))).map Prod.fst :=
      fun hh => hF23 (List.mem_append_right _ hh)
    unfold packExpectedZip
    rw [zipLookup_zipFile_other _ _ _ _ hidx,
      zipLookup_foldTexts_notmem _ _ _ hF3,
      zipLookup_foldFiles_notmem _ _ _ hF2,
      zipLookup_foldFiles_mem _ _ pb hF1nodup hmem]
  have h3 := (imgPhaseL_spec env (cleanupChildren pcChildren)
    ⟨zipFolder (zipArg.getD []) "assets/", 0⟩).2.2
  refine ⟨expectedImgFiles_length env _ 0 hne, hF1nodup, ?_, ?_, ?_⟩
  · exact List.map_congr_left (fun pb hmem => hentry pb hmem)
  · exact h3
  · have hrel := expectedImgSrcs_rel env (packSrcs env pcChildren) 0 hne
    have h4 : imgSrcsL (packImgOut env zipArg pcChildren) =
        expectedImgSrcs env 0 (packSrcs env pcChildren) := h3
    rw [h4]
    refine List.Forall₂.imp ?_ hrel
    intro a b hab
    unfold imgClaimRelF at hab
    unfold imgClaimRel
    rcases hf : env.fetchBlob a with e | blob
    · rw [hf] at hab
      exact hab
    · rw [hf] at hab
      obtain ⟨p, hb, hpF⟩ := hab
      exact ⟨p, hb, hentry (p, blob) hpF⟩

/-- Witness for C6 at the concrete environment: of the two distinct sources
exactly one is fetchable, one file is stored and referenced, and the other
image keeps its remote src. -/
theorem C6_witness :
    (expectedImgFiles envC6 0 (packSrcs envC6 pcChC6)).length =
        ((packSrcs envC6 pcChC6).filter (fetchOkB envC6)).length ∧
    ((expectedImgFiles envC6 0 (packSrcs envC6 pcChC6)).map Prod.fst).Nodup ∧
    (expectedImgFiles envC6 0 (packSrcs envC6 pcChC6)).map
        (fun pb => zipLookup zipC6 pb.1) =
      (expectedImgFiles envC6 0 (packSrcs envC6 pcChC6)).map
        (fun pb => some (ZipData.blobData pb.2)) ∧
    imgSrcsL (packImgOut envC6 none pcChC6) =
        expectedImgSrcs envC6 0 (packSrcs envC6 pcChC6) ∧
    List.Forall₂ (imgClaimRel envC6 zipC6) (packSrcs envC6 pcChC6)
      (imgSrcsL (packImgOut envC6 none pcChC6)) :=
  C6_packHTMLAssets_imageFiles envC6 "x" none "div" [("id", "page-content")] pcChC6
    zipC6 rfl (by decide) (by decide) (by decide) rfl

theorem count_dedupeFirst_zero (u : String) :
    ∀ (l seen : List String), u ∈ seen → List.count u (dedupeFirst seen l) = 0
  | [], _, _ => rfl
  | x :: xs, seen, h => by
    by_cases hx : x ∈ seen
    · simp only [dedupeFirst, if_pos hx]
      exact count_dedupeFirst_zero u xs seen h
    · have hxu : ¬ (x = u) := fun hh => hx (hh ▸ h)
      simp only [dedupeFirst, if_neg hx]
      rw [List.count_cons]
      rw [count_dedupeFirst_zero u xs (x :: seen) (List.mem_cons_of_mem x h)]
      simp [hxu]

theorem count_dedupeFirst_one (u : String) :
    ∀ (l seen : List String), u ∉ seen → u ∈ l → List.count u (dedupeFirst seen l) = 1
  | x :: xs, seen, hseen, hmem => by
    by_cases hx : x ∈ seen
    · simp only [dedupeFirst, if_pos hx]
      have hmem2 : u ∈ xs := by
        rcases List.mem_cons.mp hmem with rfl | h2
        · exact absurd hx hseen
        · exact h2
      exact count_dedupeFirst_one u xs seen hseen hmem2
    · simp only [dedupeFirst, if_neg hx]
      by_cases hux : u = x
      · subst hux
        rw [List.count_cons_self,
          count_dedupeFirst_zero u xs (u :: seen) (List.mem_cons_self u seen)]
      · have hmem2 : u ∈ xs := by
          rcases List.mem_cons.mp hmem with h2 | h2
          · exact absurd h2 hux
          · exact h2
        have hseen2 : u ∉ x :: seen := by
          intro hh
          rcases List.mem_cons.mp hh with h2 | h2
          · exact hux h2
          · exact hseen h2
        rw [List.count_cons]
        rw [count_dedupeFirst_one u xs (x :: seen) hseen2 hmem2]
        have hxu : ¬ (x = u) := fun hh => hux hh.symm
        simp [hxu]

theorem mapLookup_expectedBgMap_err (env : Env) (u e0 : String)
    (hf : env.fetchBlob u = .error e0) :
    ∀ (urls : List String) (n : Nat), mapLookup (expectedBgMap env n urls) u = none
  | [], _ => rfl
  | url :: rest, n => by
    rcases hg : env.fetchBlob url with e1 | b
    · simp only [expectedBgMap, hg]
      exact mapLookup_expectedBgMap_err env u e0 hf rest n
    · have hne : ¬ (url = u) := by
        intro hh
        rw [hh, hf] at hg
        cases hg
      simp only [expectedBgMap, hg, mapLookup, if_neg hne]
      exact mapLookup_expectedBgMap_err env u e0 hf rest (n + 1)

theorem mapLookup_expectedBgMap_ok (env : Env) (u : String) (b0 : Blob)
    (hf : env.fetchBlob u = .ok b0) :
    ∀ (urls : List String) (n : Nat), u ∈ urls →
    ∃ p, mapLookup (expectedBgMap env n urls) u = some p
  | url :: rest, n, hmem => by
    by_cases huu : url = u
    · subst huu
      simp only [expectedBgMap, hf, mapLookup, if_pos rfl]
      exact ⟨_, rfl⟩
    · have hmem2 : u ∈ rest := by
        rcases List.mem_cons.mp hmem with h2 | h2
        · exact absurd h2.symm huu
        · exact h2
      rcases hg : env.fetchBlob url with e1 | b
      · simp only [expectedBgMap, hg]
        exact mapLookup_expectedBgMap_ok env u b0 hf rest n hmem2
      · simp only [expectedBgMap, hg, mapLookup, if_neg huu]
        exact mapLookup_expectedBgMap_ok env u b0 hf rest (n + 1) hmem2

/-- Claim C7: a background URL occurring at least twice in the serialized
content is fetched exactly once (the loop runs over the deduplicated set), a
successful fetch maps it to one local path and every occurrence is rewritten
with that same path, a failed fetch leaves every occurrence as the original
remote reference, and the rewritten content is what the archive's index.html
receives. -/
theorem C7_packHTMLAssets_backgroundDedup
    (env : Env) (html : String) (zipArg : Option (List ZipEntry))
    (pcTag : String) (pcAttrs : List (String × String)) (pcChildren : List Node)
    (Z2 : List ZipEntry) (u : String)
    (hpc : findById "page-content" (env.parseHTML html) = some (pcTag, pcAttrs, pcChildren))
    (hcount : 2 ≤ List.count u (segUrls (packSegs env zipArg pcTag pcAttrs pcChildren)))
    (hrun : packHTMLAssets env html zipArg = .ok Z2) :
    List.count u (packUrls env zipArg pcTag pcAttrs pcChildren) = 1 ∧
    (mapLookup (packBgMap env zipArg pcTag pcAttrs pcChildren) u).isSome = fetchOkB env u ∧
    ((packSegs env zipArg pcTag pcAttrs pcChildren).filter (isBgOf u)).map
        (rewriteSeg (packBgMap env zipArg pcTag pcAttrs pcChildren)) =
      ((packSegs env zipArg pcTag pcAttrs pcChildren).filter (isBgOf u)).map
        (fun sg =>
          match mapLookup (packBgMap env zipArg pcTag pcAttrs pcChildren) u with
          | some p => segP1 sg ++ "./" ++ p ++ segP3 sg
          | none => segP1 sg ++ u ++ segP3 sg) ∧
    zipLookup Z2 "index.html" =
      some (.textData (indexTemplate
        (expectedCssLinks env (packC2 env zipArg pcTag pcAttrs pcChildren)
          (linkHrefsN false (env.parseHTML html)))
        (rewriteSegs (packBgMap env zipArg pcTag pcAttrs pcChildren)
          (packSegs env zipArg pcTag pcAttrs pcChildren)))) := by
  rw [packHTMLAssets_run env html zipArg pcTag pcAttrs pcChildren hpc] at hrun
  have hZ := Except.ok.inj hrun
  subst hZ
  have humem : u ∈ segUrls (packSegs env zipArg pcTag pcAttrs pcChildren) :=
    List.count_pos_iff.mp (by omega)
  have h1 : List.count u (packUrls env zipArg pcTag pcAttrs pcChildren) = 1 :=
    count_dedupeFirst_one u _ [] (by simp) humem
  have humem2 : u ∈ packUrls env zipArg pcTag pcAttrs pcChildren :=
    List.count_pos_iff.mp (by rw [h1]; norm_num)
  refine ⟨h1, ?_, ?_, ?_⟩
  · rcases hf : env.fetchBlob u with e | b
    · rw [show packBgMap env zipArg pcTag pcAttrs pcChildren =
        expectedBgMap env (packC1 env pcChildren)
          (packUrls env zipArg pcTag pcAttrs pcChildren) from rfl]
      rw [mapLookup_expectedBgMap_err env u e hf]
      simp [fetchOkB, hf]
    · obtain ⟨p, hp⟩ := mapLookup_expectedBgMap_ok env u b hf
        (packUrls env zipArg pcTag pcAttrs pcChildren) (packC1 env pcChildren) humem2
      rw [show packBgMap env zipArg pcTag pcAttrs pcChildren =
        expectedBgMap env (packC1 env pcChildren)
          (packUrls env zipArg pcTag pcAttrs pcChildren) from rfl]
      rw [hp]
      simp [fetchOkB, hf]
  · apply List.map_congr_left
    intro sg hsg
    have h2 := (List.mem_filter.mp hsg).2
    cases sg with
    | raw s => simp [isBgOf] at h2
    | bg p1 url p3 =>
      have hu : url = u := by simpa [isBgOf] using h2
      subst hu
      rcases hlk : mapLookup (packBgMap env zipArg pcTag pcAttrs pcChildren) url with _ | p
      · simp [rewriteSeg, hlk, segP1, segP3]
      · simp [rewriteSeg, hlk, segP1, segP3]
  · rw [show packExpectedZip env zipArg (env.parseHTML html) pcTag pcAttrs pcChildren =
      zipFile
        (foldTexts
          (foldFiles
            (foldFiles (zipFolder (zipArg.getD []) "assets/")
              (expectedImgFiles env 0 (packSrcs env pcChildren)))
            (expectedBgFiles env (packC1 env pcChildren)
              (packUrls env zipArg pcTag pcAttrs pcChildren)))
          (expectedCssFiles env (packC2 env zipArg pcTag pcAttrs pcChildren)
            (linkHrefsN false (env.parseHTML html))))
        "index.html"
        (.textData (packIndexHTML env zipArg (env.parseHTML html) pcTag pcAttrs pcChildren))
      from rfl]
    rw [zipLookup_zipFile_self]
    rfl

/-- Witness for C7 at the concrete environment: the URL occurs twice in the
serialized content, is fetched once, and both occurrences are rewritten to the
same local path inside the archived index.html. -/
theorem C7_witness :
    List.count "http://x/b.png" (packUrls envC7 none "div" [("id", "page-content")] pcChC7) = 1 ∧
    (mapLookup (packBgMap envC7 none "div" [("id", "page-content")] pcChC7)
        "http://x/b.png").isSome = fetchOkB envC7 "http://x/b.png" ∧
    ((packSegs envC7 none "div" [("id", "page-content")] pcChC7).filter
        (isBgOf "http://x/b.png")).map
        (rewriteSeg (packBgMap envC7 none "div" [("id", "page-content")] pcChC7)) =
      ((packSegs envC7 none "div" [("id", "page-content")] pcChC7).filter
        (isBgOf "http://x/b.png")).map
        (fun sg =>
          match mapLookup (packBgMap envC7 none "div" [("id", "page-content")] pcChC7)
              "http://x/b.png" with
          | some p => segP1 sg ++ "./" ++ p ++ segP3 sg
          | none => segP1 sg ++ "http://x/b.png" ++ segP3 sg) ∧
    zipLookup zipC7 "index.html" =
      some (.textData (indexTemplate
        (expectedCssLinks envC7 (packC2 envC7 none "div" [("id", "page-content")] pcChC7)
          (linkHrefsN false (envC7.parseHTML "x")))
        (rewriteSegs (packBgMap envC7 none "div" [("id", "page-content")] pcChC7)
          (packSegs envC7 none "div" [("id", "page-content")] pcChC7)))) :=
  C7_packHTMLAssets_backgroundDedup envC7 "x" none "div" [("id", "page-content")] pcChC7
    zipC7 "http://x/b.png" rfl (by decide) rfl

/-! ## Claim C10: incremental aggregation -/

theorem zipLookup_of_mem_nodup : ∀ (z : List ZipEntry) (e : ZipEntry),
    (zipNames z).Nodup → e ∈ z → zipLookup z e.name = some e.data
  | e0 :: z, e, hnd, hmem => by
    simp only [zipNames, List.map_cons, List.nodup_cons] at hnd
    rcases List.mem_cons.mp hmem with rfl | hmem2
    · simp [zipLookup]
    · have hin : e.name ∈ z.map (fun x => x.name) :=
        List.mem_map_of_mem (fun x => x.name) hmem2
      have hne : ¬ (e0.name = e.name) := fun hh => hnd.1 (hh ▸ hin)
      simp only [zipLookup, if_neg hne]
      exact zipLookup_of_mem_nodup z e hnd.2 hmem2

/-- Claim C10: when packHTMLAssets is given the archive of a previous call,
every entry other than index.html (the assets of earlier articles included)
is preserved unchanged, the root index.html entry is replaced by the new
call's composed document, and the archive holds exactly one index.html. -/
theorem C10_packHTMLAssets_incremental
    (env : Env) (html : String) (prevZip : List ZipEntry)
    (pcTag : String) (pcAttrs : List (String × String)) (pcChildren : List Node)
    (Z2 : List ZipEntry)
    (hpc : findById "page-content" (env.parseHTML html) = some (pcTag, pcAttrs, pcChildren))
    (hnodupZ : (zipNames prevZip).Nodup)
    (hfreshOld : ∀ p ∈
      (expectedImgFiles env 0 (packSrcs env pcChildren)).map Prod.fst ++
        ((expectedBgFiles env (packC1 env pcChildren)
            (packUrls env (some prevZip) pcTag pcAttrs pcChildren)).map Prod.fst ++
          (expectedCssFiles env (packC2 env (some prevZip) pcTag pcAttrs pcChildren)
            (linkHrefsN false (env.parseHTML html))).map Prod.fst),
      p ∉ zipNames prevZip)
    (hrun : packHTMLAssets env html (some prevZip) = .ok Z2) :
    (prevZip.filter (fun e => !(e.name == "index.html"))).map
        (fun e => zipLookup Z2 e.name) =
      (prevZip.filter (fun e => !(e.name == "index.html"))).map (fun e => some e.data) ∧
    zipLookup Z2 "index.html" =
      some (.textData
        (packIndexHTML env (some prevZip) (env.parseHTML html) pcTag pcAttrs pcChildren)) ∧
    List.count "index.html" (zipNames Z2) = 1 := by
  rw [packHTMLAssets_run env html (some prevZip) pcTag pcAttrs pcChildren hpc] at hrun
  have hZ := Except.ok.inj hrun
  subst hZ
  refine ⟨?_, ?_, ?_⟩
  · apply List.map_congr_left
    intro e he
    have hmem := (List.mem_filter.mp he).1
    have hne : ¬ (e.name = "index.html") := by
      have h2 := (List.mem_filter.mp he).2
      simpa using h2
    have hbase : zipLookup prevZip e.name = some e.data :=
      zipLookup_of_mem_nodup prevZip e hnodupZ hmem
    have hnameOld : e.name ∈ zipNames prevZip :=
      List.mem_map_of_mem (fun x => x.name) hmem
    have hF1 : e.name ∉ (expectedImgFiles env 0 (packSrcs env pcChildren)).map Prod.fst :=
      fun hh => hfreshOld e.name (List.mem_append_left _ hh) hnameOld
    have hF2 : e.name ∉ (expectedBgFiles env (packC1 env pcChildren)
        (packUrls env (some prevZip) pcTag pcAttrs pcChildren)).map Prod.fst :=
      fun hh =>
        hfreshOld e.name (List.mem_append_right _ (List.mem_append_left _ hh)) hnameOld
    have hF3 : e.name ∉ (expectedCssFiles env
        (packC2 env (some prevZip) pcTag pcAttrs pcChildren)
        (linkHrefsN false (env.parseHTML html))).map Prod.fst :=
      fun hh =>
        hfreshOld e.name (List.mem_append_right _ (List.mem_append_right _ hh)) hnameOld
    unfold packExpectedZip
    rw [zipLookup_zipFile_other _ _ _ _ hne,
      zipLookup_foldTexts_notmem _ _ _ hF3,
      zipLookup_foldFiles_notmem _ _ _ hF2,
      zipLookup_foldFiles_notmem _ _ _ hF1]
    exact zipLookup_zipFolder_of_some _ _ _ _ hbase
  · unfold packExpectedZip
    rw [zipLookup_zipFile_self]
  · have hnodup2 : (zipNames (packExpectedZip env (some prevZip) (env.parseHTML html)
        pcTag pcAttrs pcChildren)).Nodup := by
      unfold packExpectedZip
      exact nodup_names_zipFile _ _ _
        (nodup_names_foldTexts _ _
          (nodup_names_foldFiles _ _
            (nodup_names_foldFiles _ _ (nodup_names_zipFolder _ _ hnodupZ))))
    have hmem2 : "index.html" ∈ zipNames (packExpectedZip env (some prevZip)
        (env.parseHTML html) pcTag pcAttrs pcChildren) := by
      apply zipLookup_mem_names _ _
        (.textData (packIndexHTML env (some prevZip) (env.parseHTML html)
          pcTag pcAttrs pcChildren))
      unfold packExpectedZip
      rw [zipLookup_zipFile_self]
    exact List.count_eq_one_of_mem hnodup2 hmem2

/-- Witness for C10 at the concrete environment: the older asset entries are
preserved, index.html is replaced by the new document and appears exactly
once. -/
theorem C10_witness :
    (prevZipC10.filter (fun e => !(e.name == "index.html"))).map
        (fun e => zipLookup zipC10 e.name) =
      (prevZipC10.filter (fun e => !(e.name == "index.html"))).map
        (fun e => some e.data) ∧
    zipLookup zipC10 "index.html" =
      some (.textData
        (packIndexHTML envC10 (some prevZipC10) (envC10.parseHTML "x") "div"
          [("id", "page-content")] [.text "hello"])) ∧
    List.count "index.html" (zipNames zipC10) = 1 :=
  C10_packHTMLAssets_incremental envC10 "x" prevZipC10 "div" [("id", "page-content")]
    [.text "hello"] zipC10 rfl (by decide) (by decide) rfl
